import Mathlib

/-!
Verification of the ocash-sdk cryptographic core against its specification.

The development shallowly embeds the Rust sources of `ocash-crypto`,
`ocash-merkle` and `ocash-types` into Lean:

* the BN254 scalar field `Fr` is `ZMod P` for the 254-bit prime `P`;
* fallible Rust functions returning `Result` become `Except OcashError _`;
* Rust panics (`unwrap`, `expect`, out-of-bounds indexing, `copy_from_slice`
  length mismatch) are modelled by an `Option` layer whose `none` means
  "the function panics";
* byte arrays are `List Nat` of byte values, or equivalently their
  little-endian numeric value where the source treats them as such.

External crates (Keccak-256, XSalsa20-Poly1305) are not part of the
repository; functions of the repository that call them take the external
primitive as an explicit function argument, so every statement about them
is universally quantified over the primitive's behaviour.
-/

set_option maxRecDepth 40000

/-- The BN254 scalar field modulus, the base field of BabyJubjub
(`ocash-crypto/src/babyjubjub.rs`). -/
def P : Nat := 21888242871839275222246405745257275088548364400416034343698204186575808495617

/-- The scalar field `Fr = ZMod P` (the `ark_bn254::Fr` type of the source). -/
abbrev Fr : Type := ZMod P

/-- Fuel-bounded square-and-multiply modular exponentiation, used to model
field exponentiation (`inverse`, Euler's criterion) executably. -/
def powModAux (m : Nat) : Nat → Nat → Nat → Nat
  | 0, _, _ => 1 % m
  | fuel+1, b, e =>
      if e = 0 then 1 % m
      else
        let r := powModAux m fuel (b * b % m) (e / 2)
        if e % 2 = 1 then r * b % m else r

/-! ## Poseidon2 permutation (`ocash-crypto/src/poseidon2.rs`) -/

/-- hex_const of `poseidon2.rs`: a big-endian hex constant reduced into `Fr`. -/
def hexConst (n : Nat) : Fr := (n : Fr)

/-- The 4 starting full-round key triples of the Poseidon2 permutation. -/
def fullRoundKeysStart : List (Fr × Fr × Fr) :=
  [(hexConst 0x2ba117aea05b03e08d3e8cdc3441e489710b7eae2127240261f1161a4c375ec3,
   hexConst 0x13d62b66e9d5236b1c4349076bc462097eca577bcd980e3e5262986898001a95,
   hexConst 0x2ceb56ddb7d8c8886771c2f12a458edd58886a852e29ea9a157cb6c3ba8201a2),
  (hexConst 0x0ba9383b6a5ba188031f7377b152f8df895115269e8437f9eccdc767ecaf458f,
   hexConst 0x188b8a2dd4baa4aeda8cf74c2cb3f5dfa482de9987f03fdeafd832f6c3be19c6,
   hexConst 0x2672744cbbe045c930be1dcaae5b38cf4f0b9673514cbe5129908164ef7d7b58),
  (hexConst 0x1e0365a9b92d37b502579f6a3c3236df558f8417be56e58908897fa5cfbf15bb,
   hexConst 0x2060426d53c6386a3f2f4e29d886bfc8e1be0ddafbdb50a9fd0be33143d1004a,
   hexConst 0x1b917ac39485d49545e20d21e06735af839b1360e077daa4dfc2938ff91ce4d0),
  (hexConst 0x2065aa0d75c8773cd397593ca429c21ad2d10c066a09dea04378fed619021786,
   hexConst 0x04767c771c63b9efcaee16d3463c0457ba7f029dd533e5c7f4b3ccef3677db6b,
   hexConst 0x2b632ce28c5d4908c11b68f4ed9e3da0dd104c018d2376eaa0abd28f9cf8bd76)]

/-- The 56 partial-round keys of the Poseidon2 permutation. -/
def partialRoundKeys : List Fr :=
  [hexConst 0x122bd8150e3bf5129ed1f41b201d3881fe41c68ed194ffe6b414de857f03765d,
  hexConst 0x23d4440906f4412f8994c3fa4cc08e849c0fbd10dc12518a07c0e8d77562c13f,
  hexConst 0x2c5e99b87c743de13935855afed6cf836d6dd62ce31dfdca21efcfe197c9e321,
  hexConst 0x06fba87a3924cbbb4117b782aa697bbc23900de6bf31a28ecc2f6a9225aebfe4,
  hexConst 0x0c954d8f108f43ece97439775cfa22e1343a6cacae91604c76601eb6c7e90e1b,
  hexConst 0x20980b82aa1ac356a0a48bc8101468c74f1efd47cd29ea01a852d6af93836a44,
  hexConst 0x07e9df3ac21d190f9281b2ac56bf9dcce410bf95bd7fc196f4cfbb86acb60ec6,
  hexConst 0x01e7459f591496f37d759e6eb427fa073eb923d9a67b066271dabe8e793ad796,
  hexConst 0x0c1b5194e4c1af42dc01dadde54c73624ce1b8a0302d25ad499b2036f768e6e8,
  hexConst 0x0cfd0f94030d285ffb85c8aa9f0675ac7077133b5a329c78b74656932fac8a27,
  hexConst 0x0212ea73cc21625d7f1e361ad3df28c9f9cfd57fec66fb1bf69f1ab7cd11c55c,
  hexConst 0x25fbc0b1fa13ea08b022f853e9b07a5c0fe9d5fb23c26eec54599100e60d57f6,
  hexConst 0x074521adcc4a9387f4d6feeac681b1115b92f5e98e35d6d591d79b75d61d204c,
  hexConst 0x267f9f5e6eea2a9d8816d7b683ab95d8121adeeaae66990bd24be95b6f0a0cd9,
  hexConst 0x2fdf445c73cde6a7f4f23bef9bf520ceb72f08dabd391b118a253630f2878ade,
  hexConst 0x02645e68b2890d258fa7eaffbc587c5ca8f7099cc4ddf923e23672c6153a8ae7,
  hexConst 0x0c9e3d4841852fcf02818cdd86c3d86dcae4c1f7c140c3b17edc1f17b2652079,
  hexConst 0x0a42e90f71ff44221ec000e0ff81b6f229292b0cb4470ff7c66c1fe06d9e69aa,
  hexConst 0x1fb9a7d91fcf3173a1d80d3749192ed7d8a5b50cfd631571dc15154d0e71d7a2,
  hexConst 0x10bff373cf04aca27c90792eaa545000503d6f118f4d9c5a906203aefe316d42,
  hexConst 0x0956799581ce2c42ed5b55a130fb853683014e7cb9c3f32b9dfa4cf5c53127a,
  hexConst 0x2b0bd2da61cae5f4f442b449cb1e9cc6af7a6d126b02ffd65aa887278741ab07,
  hexConst 0x01c76af7e47ec30b4139081219fd7d173d498ba2e2ca928fb2b26019b16e5c64,
  hexConst 0x2d9e586bd3c8cde82932cd1397db8564cbdebfc4f5c970e28a2d9f559db9d696,
  hexConst 0x2c4b2a625ac29f468cc94f6a3ebdb7bb962f245568676073b829b95ace6d1ccc,
  hexConst 0x027299c22883e4d52b8251a0724083c063e7be0a7f0070fba1c8d4d206841e6a,
  hexConst 0x2af17121feea81979d98fa13cfdb5cf7f1f1717168ee7bf2da3709e589c381e7,
  hexConst 0x09ad5501e4c9db7fee67f2fda8ce71162e6b2e0fc252f03c3d40470168ed4ea7,
  hexConst 0x276bf230a40c51dac71697a84d603ac0423e3d8f23cc9330a23306976f7f902d,
  hexConst 0x0b40af0d626b972c04b83a3897031c9bd0b4acc3b138fc505e15fdb6b60ba5f8,
  hexConst 0x15c6033f97a1337ce18e37d0d22cf07f6c80f96af620c4d67c351e7210d688cf,
  hexConst 0x27a5134eeea854449d10ae3dd3e17cbfc0f24c21a4265bb1e99982af48eb3966,
  hexConst 0x0a3f27bafac251bbc63797868e84434a412400913e2e11616cb18f3bd01eb0d7,
  hexConst 0x09409ff82de14430d5f1f16dd157c8175372a4f922b3563550230390c4476c59,
  hexConst 0x1b6b39381a0b663344ee9a8cff259b84c593b709cf543014996ec33c7a00008b,
  hexConst 0x16ac5b58d45468a298e60cbb92055daa665f29dd7194c77cac679c35f6f64552,
  hexConst 0x121fb0f41bab603e46a4f4cb110d0a56bceff1f3af5577e7715e3777a5cfe7d8,
  hexConst 0x056f262099a9d3e1d0060799732486358ad8b7bd2f515dd8767c2d19917d282d,
  hexConst 0x0626740e4ff0fe7b8df127d56310c0c1fc47a07f630983bd55800ee8e24911d8,
  hexConst 0x0b2b0b1213bed0c4b40fe2c938d076c65f22fe21eef4767b507561a63eea2874,
  hexConst 0x1674784dcc6d6b3ef6467ee673c85311d1375aa39122ecf4b942caba565a6982,
  hexConst 0x0690678b4bc42090fdbed7a334b323db5441a24c92b5b234f54ec16cff367db3,
  hexConst 0x186719b1d7d0fb0087396c72ba57f53a5b67dc1077b82caadc62d5cdf7cd8db4,
  hexConst 0x0178ed1e5ce3430020a30f0684fb01c60136e731a9a8c6afcbad139af2e8fcf7,
  hexConst 0x1f31dc123a2384c71b57678dcf5a2fa6294f88a21a333cbec5facbc69424306c,
  hexConst 0x017d928d2e3dbbe3a273f0bec79f881f8b75f4d333002b528fb1ae737cbf13eb,
  hexConst 0x2f4fb0605668c045469510611c0137828be267709c0fa9392c28c2d95f9504bb,
  hexConst 0x2ee2627a181d62b24501da3efccba9b4a9b61e6d9a7cdaa152c39347bdebe481,
  hexConst 0x254cd2d79997885ca82e0ec5998aab8de0b09a02d04f54dcbd1a6f8776fd537b,
  hexConst 0x2aa675a61643b83ad60d88b16c574a4695fc1b463dd44f8bbd674d1a1294dbfe,
  hexConst 0x2dbc70b7e86794439ebd7d10cee37147e51769ed7a441187f6e22e644a003a51,
  hexConst 0x19fc425ab24feca173ddab7070ebb4a2eeb9b82bee3a399ebedef2affe3ecd96,
  hexConst 0x1b7a37f7ef7ce586df66295e955aba1b9b15052673534d4c13e02c19f02959e2,
  hexConst 0x0772f989bc7bc4361340c9887a0225b92a192c14a85dc3ade21f6135b9239341,
  hexConst 0x13f24e0e97fad4c45866626b9a1b9f3cc46f4ab2a018f0bda5bdade2087a07cf,
  hexConst 0x1976c62d2c2c4ba095ff81bef054fe0757d7301950ede83426a34dd6cc12a4a5]

/-- The 4 ending full-round key triples of the Poseidon2 permutation. -/
def fullRoundKeysEnd : List (Fr × Fr × Fr) :=
  [(hexConst 0x1ea7aeca90530805e5fa1b676a6f12ace24c1c0f5b6cd68bf01558be11bb864a,
   hexConst 0x070249ba94928b35fe02f56b12590e86f21a8a19e949ec10b62a5fcefea5c2b3,
   hexConst 0x02cd4b5f5d87caaac64f78c44a62c408211c2e1d70a69549f9f1d36bd8a46073),
  (hexConst 0x07f4c9774540f9f81fa29a73910899ad91d950e8f83a4f52d37ccc35a982f152,
   hexConst 0x02d8b931d897f634fd9cdae140a7b3f4d4bab1814e009fe84e754c4a23ae23cc,
   hexConst 0x2b9e86726e0cfec43981d9898da6ddb631ae469a473aa73e570274ecd2376899),
  (hexConst 0x0c96c00773943b1de5a3dfb5959f30975f85adc57cc641bc2cea037837447191,
   hexConst 0x258a43226d21462808593a8701f2dce2aaa28668f8fe35647a706fa4a81d5d47,
   hexConst 0x26688ac841f42286102d1494db773e91760d8cad9cfb1a654284ed630a9bee42),
  (hexConst 0x0b39f30858ad21e1805c8ced014837777cfdd776fc2d4c07a97b2351f21764b1,
   hexConst 0x0b114bc66867e038d6648a6ab3556243a5f78ea3db7aa997ba13961735792377,
   hexConst 0x0c08b1719426f8ff2dee487f9f41ac785ffdb8a7be5fc869754689cb02999e51)]

/-- The x^5 S-box. -/
def sbox (x : Fr) : Fr :=
  let x2 := x * x
  let x4 := x2 * x2
  x4 * x

/-- External (full-round) MDS mixing. -/
def externalMatrix (s : Fr × Fr × Fr) : Fr × Fr × Fr :=
  let sum := s.1 + s.2.1 + s.2.2
  (s.1 + sum, s.2.1 + sum, s.2.2 + sum)

/-- Internal (partial-round) MDS mixing. -/
def partialMatrix (s : Fr × Fr × Fr) : Fr × Fr × Fr :=
  let sum := s.1 + s.2.1 + s.2.2
  (s.1 + sum, s.2.1 + sum, s.2.2 + s.2.2 + sum)

/-- One full Poseidon2 permutation of a 3-element state. -/
def permutation (s0 s1 s2 : Fr) : Fr × Fr × Fr :=
  let s := externalMatrix (s0, s1, s2)
  let s := fullRoundKeysStart.foldl
    (fun st k => externalMatrix (sbox (st.1 + k.1), sbox (st.2.1 + k.2.1), sbox (st.2.2 + k.2.2))) s
  let s := partialRoundKeys.foldl
    (fun st c => partialMatrix (sbox (st.1 + c), st.2.1, st.2.2)) s
  let s := fullRoundKeysEnd.foldl
    (fun st k => externalMatrix (sbox (st.1 + k.1), sbox (st.2.1 + k.2.1), sbox (st.2.2 + k.2.2))) s
  s

/-- hash_domain: hash two field elements with an explicit domain. -/
def hashDomain (a b domain : Fr) : Fr :=
  (permutation a b domain).1

/-- hash: the zero-domain two-to-one hash. -/
def hash (a b : Fr) : Fr :=
  hashDomain a b 0

/-- The named hashing domains of `poseidon2.rs`. -/
inductive Poseidon2Domain where
  | none | record | nullifier | merkle | policy | array | memo | asset | keyDerivation
  deriving DecidableEq

/-- The `Fr` constant of a named domain (ASCII-derived, as in the source). -/
def Poseidon2Domain.value : Poseidon2Domain → Fr
  | .none => (0x0000000000000000 : Fr)
  | .record => (0x5245434f52440000 : Fr)
  | .nullifier => (0x4e554c4c49464945 : Fr)
  | .merkle => (0x4d45524b4c450000 : Fr)
  | .policy => (0x504f4c4943590000 : Fr)
  | .array => (0x4152524159000000 : Fr)
  | .memo => (0x4d454d4f00000000 : Fr)
  | .asset => (0x4153534554000000 : Fr)
  | .keyDerivation => (0x4b45594445520000 : Fr)

/-- hash_with_domain: hash with a named domain. -/
def hashWithDomain (a b : Fr) (domain : Poseidon2Domain) : Fr :=
  hashDomain a b domain.value

/-- hash_sequence_with_domain.  The Rust function returns `Fr` and panics
(`expect`) when `inputs` is empty and `seed` is `None`; the panic is
modelled by `none`. -/
def hashSequenceWithDomain (inputs : List Fr) (domain : Fr) (seed : Option Fr) : Option Fr :=
  if inputs.isEmpty then
    seed
  else if inputs.length = 1 ∧ seed.isNone then
    some (hashDomain 0 (inputs.getD 0 0) domain)
  else
    let (acc, startIndex) :=
      match seed with
      | some s => (hashDomain s (inputs.getD 0 0) domain, 1)
      | none => (hashDomain (inputs.getD 0 0) (inputs.getD 1 0) domain, 2)
    some ((inputs.drop startIndex).foldl (fun a x => hashDomain a x domain) acc)

/-! ## Error surface (`ocash-types/src/lib.rs`)

Error payloads (human-readable message strings) are dropped: callers in the
repository only match on the variant.
-/

inductive OcashError where
  | invalidHex
  | pointNotOnCurve
  | invalidCompressedPoint
  | noSquareRoot
  | keyDerivation
  | seedTooShort
  | invalidKeyPair
  | encryption
  | decryptionFailed
  | other
  deriving DecidableEq, Repr

/-- Model of Rust's `Option::ok_or`. -/
def okOr {α : Type} (o : Option α) (e : OcashError) : Except OcashError α :=
  match o with
  | some v => .ok v
  | none => .error e

/-- The `?` operator on a `Result` inside a panic-tracking (`Option`) layer. -/
def exceptElim {α β : Type} (r : Except OcashError α)
    (f : α → Option (Except OcashError β)) : Option (Except OcashError β) :=
  match r with
  | .error e => some (.error e)
  | .ok v => f v

instance {ε α : Type} [DecidableEq ε] [DecidableEq α] : DecidableEq (Except ε α)
  | .error e, .error f =>
      if h : e = f then .isTrue (by rw [h]) else .isFalse (by simp [h])
  | .error _, .ok _ => .isFalse (by simp)
  | .ok _, .error _ => .isFalse (by simp)
  | .ok a, .ok b =>
      if h : a = b then .isTrue (by rw [h]) else .isFalse (by simp [h])

/-! ## BabyJubjub curve arithmetic (`ocash-crypto/src/babyjubjub.rs`) -/

/-- Curve parameter `a = -1`. -/
def curveA : Fr := -(1 : Fr)

/-- Curve parameter `d`. -/
def curveD : Fr :=
  (12181644023421730124874158521699555681764249180949974110617291017600649128846 : Fr)

/-- The base point `G`. -/
def basePoint : Fr × Fr :=
  ((9671717474070082183213120605117400219616337014328744928644933853176787189663 : Fr),
   (16950150798460657717958625567821834550301663161624707787222815936182638968203 : Fr))

/-- The identity element `(0, 1)`. -/
def identityPoint : Fr × Fr := (0, 1)

/-- is_on_curve: check `a*x^2 + y^2 = 1 + d*x^2*y^2`. -/
def isOnCurve (x y : Fr) : Bool :=
  let x2 := x * x
  let y2 := y * y
  curveA * x2 + y2 = 1 + curveD * x2 * y2

/-- Model of `ark_ff`'s `Fr::inverse()`: `none` exactly on zero, otherwise the
field inverse (computed executably by Fermat exponentiation). -/
def inverse (x : Fr) : Option Fr :=
  if x = 0 then none
  else some ((powModAux P 254 x.val (P - 2) : Nat) : Fr)

/-- point_add: complete twisted-Edwards addition.  The two `unwrap`s on the
denominator inversions are modelled by the `Option`: `none` means the Rust
code panics. -/
def pointAdd (p1 p2 : Fr × Fr) : Option (Fr × Fr) :=
  let (x1, y1) := p1
  let (x2, y2) := p2
  if x1 = 0 ∧ y1 = 1 then some (x2, y2)
  else if x2 = 0 ∧ y2 = 1 then some (x1, y1)
  else
    let beta := x1 * y2
    let gamma := y1 * x2
    let delta := (y1 - curveA * x1) * (x2 + y2)
    let tau := beta * gamma
    let dtau := curveD * tau
    match inverse (1 + dtau), inverse (1 - dtau) with
    | some ix, some iy =>
        some ((beta + gamma) * ix, (delta + curveA * beta - gamma) * iy)
    | _, _ => none

/-- The loop body of `mul_point`: left-to-right over the 256 little-endian
bits of the canonical representative; doubling happens on every iteration, so
a panic in either addition propagates. -/
def mulLoop (scalarVal : Nat) : Nat → (Fr × Fr) → (Fr × Fr) → Option (Fr × Fr)
  | 0, res, _ => some res
  | i+1, res, cur => do
      let res' ← if scalarVal.testBit (256 - (i+1)) then pointAdd res cur else some res
      let cur' ← pointAdd cur cur
      mulLoop scalarVal i res' cur'

/-- mul_point: double-and-add scalar multiplication by the canonical
(`into_bigint`) representative of the scalar. -/
def mulPoint (base : Fr × Fr) (scalar : Fr) : Option (Fr × Fr) :=
  if scalar = 0 then some identityPoint
  else mulLoop scalar.val 256 identityPoint base

/-- scalar_mult: multiplication of the base point. -/
def scalarMult (scalar : Fr) : Option (Fr × Fr) :=
  mulPoint basePoint scalar

/-- Little-endian byte expansion (`n` bytes). -/
def leBytes : Nat → Nat → List Nat
  | 0, _ => []
  | n+1, v => v % 256 :: leBytes n (v / 256)

/-- bigint_to_le_bytes: 32-byte little-endian form of a field element. -/
def bigintToLeBytes (x : Fr) : List Nat := leBytes 32 x.val

/-- Numeric value of a little-endian byte list (`from_le_bytes` semantics). -/
def leBytesToNat : List Nat → Nat
  | [] => 0
  | b :: rest => b + 256 * leBytesToNat rest

/-- Fr::from_le_bytes_mod_order. -/
def fromLeBytesModOrder (bytes : List Nat) : Fr :=
  ((leBytesToNat bytes : Nat) : Fr)

/-- Big-endian lexicographic comparison, `true` iff the first list wins
strictly at the first differing byte. -/
def lexGtBE : List Nat → List Nat → Bool
  | a :: as, b :: bs =>
      if a > b then true
      else if a < b then false
      else lexGtBE as bs
  | _, _ => false

/-- is_lexicographically_largest: compare the little-endian bytes of `x`
and `-x` from byte 31 downwards. -/
def isLexicographicallyLargest (x : Fr) : Bool :=
  lexGtBE (bigintToLeBytes x).reverse (bigintToLeBytes (-x)).reverse

/-- compress_point: 32 bytes, `y` little-endian with the sign of `x` in the
top bit of byte 31. -/
def compressPoint (x y : Fr) : Except OcashError (List Nat) :=
  if isOnCurve x y then
    let compressed := bigintToLeBytes y
    let b := compressed.getD 31 0
    if isLexicographicallyLargest x then
      .ok (compressed.set 31 (b ||| 0x80))
    else
      .ok (compressed.set 31 (b &&& 0x7F))
  else
    .error .pointNotOnCurve

/-- Model of `sqrt_field` (which defers to `ark_ff`'s Tonelli–Shanks):
`none` exactly when no square root exists; the particular root returned is
immaterial to the callers, which re-canonicalise by sign.  The quadratic
residue test is Euler's criterion, executable through `powModAux`; the root
itself is the least natural-number root. -/
def sqrtField (n : Fr) : Option Fr :=
  if n = 0 then some 0
  else if powModAux P 254 n.val ((P - 1) / 2) ≠ 1 then none
  else
    match (List.range' 0 P).find? (fun k => k * k % P = n.val) with
    | some k => some ((k : Nat) : Fr)
    | none => none

/-- recover_x_coordinate: solve `x^2 = (1 - y^2) / (a - d*y^2)` and pick
the root matching the recorded sign. -/
def recoverXCoordinate (y : Fr) (isXLexLargest : Bool) : Except OcashError Fr :=
  let y2 := y * y
  let numerator := 1 - y2
  let denominator := curveA - curveD * y2
  Except.bind (okOr (inverse denominator) .noSquareRoot) fun denomInv =>
    let x2 := numerator * denomInv
    Except.bind (okOr (sqrtField x2) .noSquareRoot) fun x =>
      if isLexicographicallyLargest x = isXLexLargest then .ok x else .ok (-x)

/-- decompress_point. -/
def decompressPoint (compressed : List Nat) : Except OcashError (Fr × Fr) :=
  let isXLexLargest : Bool := (compressed.getD 31 0) &&& 0x80 ≠ 0
  let yBytes := compressed.set 31 ((compressed.getD 31 0) &&& 0x7F)
  let y := fromLeBytesModOrder yBytes
  Except.bind (recoverXCoordinate y isXLexLargest) fun x =>
    if isOnCurve x y then .ok (x, y) else .error .pointNotOnCurve

/-! ## Hex parsing (`ocash-types/src/lib.rs`)

Rust `&str` values are modelled as `List Char`.
-/

/-- Value of one hex digit (`hex` crate semantics, case-insensitive). -/
def hexDigitVal (c : Char) : Option Nat :=
  if '0' ≤ c ∧ c ≤ '9' then some (c.toNat - '0'.toNat)
  else if 'a' ≤ c ∧ c ≤ 'f' then some (c.toNat - 'a'.toNat + 10)
  else if 'A' ≤ c ∧ c ≤ 'F' then some (c.toNat - 'A'.toNat + 10)
  else none

/-- Model of `hex::decode`: `none` on odd length or a non-hex character. -/
def hexDecode : List Char → Option (List Nat)
  | [] => some []
  | [_] => none
  | c1 :: c2 :: rest => do
      let h ← hexDigitVal c1
      let l ← hexDigitVal c2
      let r ← hexDecode rest
      return (16 * h + l) :: r

/-- Drops a leading 0x marker, as strip_prefix("0x").unwrap_or does. -/
def dropHexMarker : List Char → List Char
  | '0' :: 'x' :: rest => rest
  | s => s

/-- Big-endian numeric value of a byte list.  (In the source, the bytes are
left-padded to 32, reversed, and fed to `from_le_bytes_mod_order`; that
composite equals the big-endian value reduced mod `P`.) -/
def beBytesToNat (bytes : List Nat) : Nat :=
  bytes.foldl (fun acc b => acc * 256 + b) 0

/-- hex_to_field.  The outer `Option` models the `copy_from_slice` panic
when the decoded payload exceeds 32 bytes. -/
def hexToField (s : List Char) : Option (Except OcashError Fr) :=
  (hexDecode (dropHexMarker s)).elim (some (.error .invalidHex)) fun bytes =>
    if bytes.length ≤ 32 then some (.ok ((beBytesToNat bytes : Nat) : Fr))
    else none

/-! ## Record codec (`ocash-crypto/src/record.rs`) — decoding side -/

structure RecordOpening where
  assetId : Fr
  assetAmount : Fr
  userPk : Fr × Fr
  blindingFactor : Fr
  isFrozen : Bool
  deriving DecidableEq, Repr

/-- be_bytes_to_field: big-endian bytes to a field element. -/
def beBytesToField (data : List Nat) : Fr :=
  ((beBytesToNat data : Nat) : Fr)

/-- record::decode: five 32-byte slots. -/
def recordDecode (data : List Nat) : Except OcashError RecordOpening :=
  if data.length ≠ 160 then .error .other
  else
    let assetId := beBytesToField (data.take 32)
    let assetAmount := beBytesToField ((data.drop 32).take 32)
    let compressed := (data.drop 64).take 32
    Except.bind (decompressPoint compressed) fun pk =>
      let blindingFactor := beBytesToField ((data.drop 96).take 32)
      let isFrozen : Bool := data.getD 159 0 = 1
      .ok ⟨assetId, assetAmount, pk, blindingFactor, isFrozen⟩

/-! ## Memo envelope (`ocash-crypto/src/memo.rs`) — decryption side

Keccak-256 and the XSalsa20-Poly1305 AEAD live in external crates; the
embedded functions take them as arguments (`keccak` maps bytes to bytes,
`aeadOpen key nonce ciphertext` returns the plaintext or `none`).
-/

/-- memo_nonce: `keccak256(compress(ephPk) ‖ compress(userPk))[0..24]`. -/
def memoNonce (keccak : List Nat → List Nat) (ephPk userPk : Fr × Fr) :
    Except OcashError (List Nat) :=
  Except.bind (compressPoint ephPk.1 ephPk.2) fun ec =>
    Except.bind (compressPoint userPk.1 userPk.2) fun uc =>
      .ok ((keccak (ec ++ uc)).take 24)

/-- decrypt_memo.  Result layers: outer `Option` = panic, `Except` = the
Rust `Result`, inner `Option` = decrypted record or negative result. -/
def decryptMemo (keccak : List Nat → List Nat)
    (aeadOpen : List Nat → List Nat → List Nat → Option (List Nat))
    (secretKey : Fr) (encoded : List Char) :
    Option (Except OcashError (Option RecordOpening)) :=
  (hexDecode (dropHexMarker encoded)).elim (some (.error .invalidHex)) fun payload =>
    if payload.length < 32 + 16 then some (.ok none)
    else
      exceptElim (decompressPoint (payload.take 32)) fun ephPk =>
        let ciphertext := payload.drop 32
        (scalarMult secretKey).bind fun bobPk =>
          (mulPoint ephPk secretKey).bind fun sharedPoint =>
            exceptElim (compressPoint sharedPoint.1 sharedPoint.2) fun sharedKey =>
              exceptElim (memoNonce keccak ephPk bobPk) fun nonceBytes =>
                (aeadOpen sharedKey nonceBytes ciphertext).elim (some (.ok none))
                  fun plaintext =>
                    exceptElim (recordDecode plaintext) fun ro => some (.ok (some ro))

/-! ## Sparse Merkle tree (`ocash-merkle/src/lib.rs`) -/

def TREE_DEPTH_DEFAULT : Nat := 32

/-- The `zero_hashes()` construction: start from `[0]` and push
`hash(last, last, Merkle)` thirty-two times. -/
def zeroHashesAux : Nat → List Fr → List Fr
  | 0, acc => acc
  | n+1, acc =>
      let prev := acc.getLast?.getD 0
      zeroHashesAux n (acc ++ [hashWithDomain prev prev .merkle])

/-- The 33-entry pre-computed zero-hash table.  (Every tree instance carries
this same table: `LocalMerkleTree::new` always stores `zero_hashes()`.) -/
def zeroHashesList : List Fr := zeroHashesAux TREE_DEPTH_DEFAULT [0]

/-- Specification-side zero-hash recurrence `Z[0] = 0`,
`Z[ℓ] = hash(Z[ℓ-1], Z[ℓ-1], Merkle)`. -/
def zh : Nat → Fr
  | 0 => 0
  | n+1 => hashWithDomain (zh n) (zh n) .merkle

/-- Tree state: depth and leaves (the zero-hash table is the global
`zeroHashesList`). -/
structure LocalMerkleTree where
  depth : Nat
  leaves : List Fr
  deriving Repr

def LocalMerkleTree.leafCount (t : LocalMerkleTree) : Nat := t.leaves.length

def LocalMerkleTree.latestCid (t : LocalMerkleTree) : Nat :=
  if t.leaves.isEmpty then 0 else t.leaves.length - 1

/-- Computes node(level, position): stored leaf or `Z[0]` at level 0; empty-subtree
short-circuit to `zero_hashes[level]` otherwise; else hash of the children.
`none` models the out-of-bounds panic on `zero_hashes[level]` for
`level > 32`. -/
def LocalMerkleTree.node (t : LocalMerkleTree) : Nat → Nat → Option Fr
  | 0, position =>
      if position < t.leaves.length then some (t.leaves.getD position 0)
      else zeroHashesList.get? 0
  | level+1, position =>
      if t.leaves.length ≤ position <<< (level+1) then zeroHashesList.get? (level+1)
      else do
        let left ← t.node level (position * 2)
        let right ← t.node level (position * 2 + 1)
        some (hashWithDomain left right .merkle)

def LocalMerkleTree.root (t : LocalMerkleTree) : Option Fr :=
  t.node t.depth 0

/-- The naive recursive node value: empty leaves are `0`, every internal
node is the Merkle-domain hash of its children (no short-circuit). -/
def naiveNode (t : LocalMerkleTree) : Nat → Nat → Fr
  | 0, position =>
      if position < t.leaves.length then t.leaves.getD position 0 else 0
  | level+1, position =>
      hashWithDomain (naiveNode t level (position * 2)) (naiveNode t level (position * 2 + 1))
        .merkle

structure MerkleProof where
  leafIndex : Nat
  path : List Fr
  deriving DecidableEq, Repr

/-- The sibling-collection loop of `build_proof_by_cids`. -/
def LocalMerkleTree.siblingsLoop (t : LocalMerkleTree) : Nat → Nat → Nat → Option (List Fr)
  | 0, _, _ => some []
  | n+1, level, pos => do
      let s ← t.node level (pos ^^^ 1)
      let rest ← t.siblingsLoop n (level + 1) (pos / 2)
      return s :: rest

/-- build_proof_by_cids.  `none` models the two assertion panics
(empty cid list, cid beyond `latest_cid`). -/
def LocalMerkleTree.buildProofByCids (t : LocalMerkleTree) (cids : List Nat) :
    Option (List MerkleProof) :=
  if cids.isEmpty then none
  else cids.mapM fun cid =>
    if cid ≤ t.latestCid then do
      let leaf ← t.node 0 cid
      let siblings ← t.siblingsLoop t.depth 0 cid
      return ⟨cid, leaf :: siblings⟩
    else none

/-- The root-recomputation loop of `verify_proof`. -/
def verifyLoop : List Fr → Nat → Fr → Fr
  | [], _, current => current
  | s :: rest, pos, current =>
      verifyLoop rest (pos / 2)
        (if pos % 2 = 0 then hashWithDomain current s .merkle
         else hashWithDomain s current .merkle)

/-- verify_proof against the current root (`none` models a panic inside
`root()`). -/
def LocalMerkleTree.verifyProof (t : LocalMerkleTree) (proof : MerkleProof) : Option Bool :=
  if proof.path.length ≠ t.depth + 1 then some false
  else do
    let r ← t.root
    return decide (verifyLoop (proof.path.drop 1) proof.leafIndex (proof.path.getD 0 0) = r)

/-- A fixed square root of `-1` in `Fr` (`P ≡ 1 mod 4`). -/
def sqrtNegOne : Fr :=
  (21888242871839275217838484774961031246007050428528088939761107053157389710902 : Fr)

/-! ## Commitment (`ocash-crypto/src/commitment.rs`) -/

/-- The frozen-flag constant `Fr::from_bigint([0, 0, 1, 0]) = 2^128`. -/
def frozenBitConst : Fr := (340282366920938463463374607431768211456 : Fr)

/-- commitment: fold the record-opening fields with the `Record` domain. -/
def commitment (userPkX userPkY blindingFactor assetId assetAmount : Fr)
    (isFrozen : Bool) : Option Fr :=
  let amount := if isFrozen then assetAmount + frozenBitConst else assetAmount
  hashSequenceWithDomain [userPkX, userPkY, blindingFactor, assetId, amount]
    Poseidon2Domain.record.value none

/-! ## Proof development -/

theorem powModAux_correct (m : Nat) :
    ∀ fuel b e, e < 2 ^ fuel → powModAux m fuel b e = b ^ e % m := by
  intro fuel
  induction fuel with
  | zero =>
      intro b e he
      interval_cases e
      simp [powModAux]
  | succ n ih =>
      intro b e he
      by_cases h0 : e = 0
      · subst h0; simp [powModAux]
      · have hdiv : e / 2 < 2 ^ n := by
          have h2 : (2 : Nat) ^ (n + 1) = 2 ^ n * 2 := pow_succ 2 n
          omega
        rw [powModAux]
        simp only [h0, if_false]
        rw [ih (b * b % m) (e / 2) hdiv]
        have hbb : (b * b % m) ^ (e / 2) % m = (b * b) ^ (e / 2) % m := by
          rw [Nat.pow_mod, Nat.mod_mod_of_dvd, ← Nat.pow_mod]
          exact dvd_refl m
        rw [hbb]
        have hb2 : (b * b) ^ (e / 2) = b ^ (2 * (e / 2)) := by
          rw [← pow_two, ← pow_mul]
        rw [hb2]
        rcases Nat.even_or_odd e with hpar | hpar
        · have h2 : e % 2 = 0 := Nat.even_iff.mp hpar
          have he2 : 2 * (e / 2) = e := by omega
          simp [h2, he2]
        · have h2 : e % 2 = 1 := Nat.odd_iff.mp hpar
          simp only [h2, if_pos rfl]
          rw [Nat.mod_mul_mod]
          have he2 : 2 * (e / 2) + 1 = e := by omega
          rw [← pow_succ, he2]
          simp

theorem pow_eq_powModAux {m : Nat} [NeZero m] (fuel : Nat) (x : ZMod m) (e : Nat)
    (he : e < 2 ^ fuel) :
    x ^ e = ((powModAux m fuel x.val e : Nat) : ZMod m) := by
  rw [powModAux_correct m fuel x.val e he, ZMod.natCast_mod, Nat.cast_pow,
    ZMod.natCast_zmod_val]

theorem prime_405928799 : Nat.Prime 405928799 := by
  haveI : NeZero 405928799 := ⟨by norm_num⟩
  have ha : (22 : ZMod 405928799) ^ (405928799 - 1) = 1 := by
    rw [pow_eq_powModAux 254 _ _ (by norm_num)]
    decide
  refine lucas_primality 405928799 22 ha ?_
  intro q hq hdvd
  have hfac : q = 2 ∨ q = 11 ∨ q = 3691 ∨ q = 4999 := by
    have hprod : q ∣ 2 * (11 * (3691 * (4999))) := by
      have he : (405928799 - 1 : Nat) = 2 * (11 * (3691 * (4999))) := by norm_num
      rwa [he] at hdvd
    rcases hq.dvd_mul.mp hprod with h | h
    · exact Or.inl ((Nat.prime_dvd_prime_iff_eq hq (by norm_num)).mp h)
    rcases hq.dvd_mul.mp h with h | h
    · exact Or.inr (Or.inl ((Nat.prime_dvd_prime_iff_eq hq (by norm_num)).mp h))
    rcases hq.dvd_mul.mp h with h | h
    · exact Or.inr (Or.inr (Or.inl ((Nat.prime_dvd_prime_iff_eq hq (by norm_num)).mp h)))
    · exact Or.inr (Or.inr (Or.inr ((Nat.prime_dvd_prime_iff_eq hq (by norm_num)).mp h)))
  rcases hfac with rfl | rfl | rfl | rfl
  · rw [show (405928799 - 1) / 2 = 202964399 from by norm_num,
      pow_eq_powModAux 254 _ _ (by norm_num)]
    decide
  · rw [show (405928799 - 1) / 11 = 36902618 from by norm_num,
      pow_eq_powModAux 254 _ _ (by norm_num)]
    decide
  · rw [show (405928799 - 1) / 3691 = 109978 from by norm_num,
      pow_eq_powModAux 254 _ _ (by norm_num)]
    decide
  · rw [show (405928799 - 1) / 4999 = 81202 from by norm_num,
      pow_eq_powModAux 254 _ _ (by norm_num)]
    decide

theorem prime_12048837557 : Nat.Prime 12048837557 := by
  haveI : NeZero 12048837557 := ⟨by norm_num⟩
  have ha : (2 : ZMod 12048837557) ^ (12048837557 - 1) = 1 := by
    rw [pow_eq_powModAux 254 _ _ (by norm_num)]
    decide
  refine lucas_primality 12048837557 2 ha ?_
  intro q hq hdvd
  have hfac : q = 2 ∨ q = 7 ∨ q = 661 ∨ q = 93001 := by
    have hprod : q ∣ 2 ^ 2 * (7 ^ 2 * (661 * (93001))) := by
      have he : (12048837557 - 1 : Nat) = 2 ^ 2 * (7 ^ 2 * (661 * (93001))) := by norm_num
      rwa [he] at hdvd
    rcases hq.dvd_mul.mp hprod with h | h
    · exact Or.inl ((Nat.prime_dvd_prime_iff_eq hq (by norm_num)).mp (hq.dvd_of_dvd_pow h))
    rcases hq.dvd_mul.mp h with h | h
    · exact Or.inr (Or.inl ((Nat.prime_dvd_prime_iff_eq hq (by norm_num)).mp (hq.dvd_of_dvd_pow h)))
    rcases hq.dvd_mul.mp h with h | h
    · exact Or.inr (Or.inr (Or.inl ((Nat.prime_dvd_prime_iff_eq hq (by norm_num)).mp h)))
    · exact Or.inr (Or.inr (Or.inr ((Nat.prime_dvd_prime_iff_eq hq (by norm_num)).mp h)))
  rcases hfac with rfl | rfl | rfl | rfl
  · rw [show (12048837557 - 1) / 2 = 6024418778 from by norm_num,
      pow_eq_powModAux 254 _ _ (by norm_num)]
    decide
  · rw [show (12048837557 - 1) / 7 = 1721262508 from by norm_num,
      pow_eq_powModAux 254 _ _ (by norm_num)]
    decide
  · rw [show (12048837557 - 1) / 661 = 18228196 from by norm_num,
      pow_eq_powModAux 254 _ _ (by norm_num)]
    decide
  · rw [show (12048837557 - 1) / 93001 = 129556 from by norm_num,
      pow_eq_powModAux 254 _ _ (by norm_num)]
    decide

theorem prime_5156902474397 : Nat.Prime 5156902474397 := by
  haveI : NeZero 5156902474397 := ⟨by norm_num⟩
  have ha : (2 : ZMod 5156902474397) ^ (5156902474397 - 1) = 1 := by
    rw [pow_eq_powModAux 254 _ _ (by norm_num)]
    decide
  refine lucas_primality 5156902474397 2 ha ?_
  intro q hq hdvd
  have hfac : q = 2 ∨ q = 107 ∨ q = 12048837557 := by
    have hprod : q ∣ 2 ^ 2 * (107 * (12048837557)) := by
      have he : (5156902474397 - 1 : Nat) = 2 ^ 2 * (107 * (12048837557)) := by norm_num
      rwa [he] at hdvd
    rcases hq.dvd_mul.mp hprod with h | h
    · exact Or.inl ((Nat.prime_dvd_prime_iff_eq hq (by norm_num)).mp (hq.dvd_of_dvd_pow h))
    rcases hq.dvd_mul.mp h with h | h
    · exact Or.inr (Or.inl ((Nat.prime_dvd_prime_iff_eq hq (by norm_num)).mp h))
    · exact Or.inr (Or.inr ((Nat.prime_dvd_prime_iff_eq hq prime_12048837557).mp h))
  rcases hfac with rfl | rfl | rfl
  · rw [show (5156902474397 - 1) / 2 = 2578451237198 from by norm_num,
      pow_eq_powModAux 254 _ _ (by norm_num)]
    decide
  · rw [show (5156902474397 - 1) / 107 = 48195350228 from by norm_num,
      pow_eq_powModAux 254 _ _ (by norm_num)]
    decide
  · rw [show (5156902474397 - 1) / 12048837557 = 428 from by norm_num,
      pow_eq_powModAux 254 _ _ (by norm_num)]
    decide

theorem prime_1670836401704629 : Nat.Prime 1670836401704629 := by
  haveI : NeZero 1670836401704629 := ⟨by norm_num⟩
  have ha : (2 : ZMod 1670836401704629) ^ (1670836401704629 - 1) = 1 := by
    rw [pow_eq_powModAux 254 _ _ (by norm_num)]
    decide
  refine lucas_primality 1670836401704629 2 ha ?_
  intro q hq hdvd
  have hfac : q = 2 ∨ q = 3 ∨ q = 5156902474397 := by
    have hprod : q ∣ 2 ^ 2 * (3 ^ 4 * (5156902474397)) := by
      have he : (1670836401704629 - 1 : Nat) = 2 ^ 2 * (3 ^ 4 * (5156902474397)) := by norm_num
      rwa [he] at hdvd
    rcases hq.dvd_mul.mp hprod with h | h
    · exact Or.inl ((Nat.prime_dvd_prime_iff_eq hq (by norm_num)).mp (hq.dvd_of_dvd_pow h))
    rcases hq.dvd_mul.mp h with h | h
    · exact Or.inr (Or.inl ((Nat.prime_dvd_prime_iff_eq hq (by norm_num)).mp (hq.dvd_of_dvd_pow h)))
    · exact Or.inr (Or.inr ((Nat.prime_dvd_prime_iff_eq hq prime_5156902474397).mp h))
  rcases hfac with rfl | rfl | rfl
  · rw [show (1670836401704629 - 1) / 2 = 835418200852314 from by norm_num,
      pow_eq_powModAux 254 _ _ (by norm_num)]
    decide
  · rw [show (1670836401704629 - 1) / 3 = 556945467234876 from by norm_num,
      pow_eq_powModAux 254 _ _ (by norm_num)]
    decide
  · rw [show (1670836401704629 - 1) / 5156902474397 = 324 from by norm_num,
      pow_eq_powModAux 254 _ _ (by norm_num)]
    decide

theorem prime_639533339 : Nat.Prime 639533339 := by
  haveI : NeZero 639533339 := ⟨by norm_num⟩
  have ha : (2 : ZMod 639533339) ^ (639533339 - 1) = 1 := by
    rw [pow_eq_powModAux 254 _ _ (by norm_num)]
    decide
  refine lucas_primality 639533339 2 ha ?_
  intro q hq hdvd
  have hfac : q = 2 ∨ q = 229 ∨ q = 853 ∨ q = 1637 := by
    have hprod : q ∣ 2 * (229 * (853 * (1637))) := by
      have he : (639533339 - 1 : Nat) = 2 * (229 * (853 * (1637))) := by norm_num
      rwa [he] at hdvd
    rcases hq.dvd_mul.mp hprod with h | h
    · exact Or.inl ((Nat.prime_dvd_prime_iff_eq hq (by norm_num)).mp h)
    rcases hq.dvd_mul.mp h with h | h
    · exact Or.inr (Or.inl ((Nat.prime_dvd_prime_iff_eq hq (by norm_num)).mp h))
    rcases hq.dvd_mul.mp h with h | h
    · exact Or.inr (Or.inr (Or.inl ((Nat.prime_dvd_prime_iff_eq hq (by norm_num)).mp h)))
    · exact Or.inr (Or.inr (Or.inr ((Nat.prime_dvd_prime_iff_eq hq (by norm_num)).mp h)))
  rcases hfac with rfl | rfl | rfl | rfl
  · rw [show (639533339 - 1) / 2 = 319766669 from by norm_num,
      pow_eq_powModAux 254 _ _ (by norm_num)]
    decide
  · rw [show (639533339 - 1) / 229 = 2792722 from by norm_num,
      pow_eq_powModAux 254 _ _ (by norm_num)]
    decide
  · rw [show (639533339 - 1) / 853 = 749746 from by norm_num,
      pow_eq_powModAux 254 _ _ (by norm_num)]
    decide
  · rw [show (639533339 - 1) / 1637 = 390674 from by norm_num,
      pow_eq_powModAux 254 _ _ (by norm_num)]
    decide

theorem prime_65865678001877903 : Nat.Prime 65865678001877903 := by
  haveI : NeZero 65865678001877903 := ⟨by norm_num⟩
  have ha : (5 : ZMod 65865678001877903) ^ (65865678001877903 - 1) = 1 := by
    rw [pow_eq_powModAux 254 _ _ (by norm_num)]
    decide
  refine lucas_primality 65865678001877903 5 ha ?_
  intro q hq hdvd
  have hfac : q = 2 ∨ q = 83 ∨ q = 379 ∨ q = 1637 ∨ q = 639533339 := by
    have hprod : q ∣ 2 * (83 * (379 * (1637 * (639533339)))) := by
      have he : (65865678001877903 - 1 : Nat) = 2 * (83 * (379 * (1637 * (639533339)))) := by norm_num
      rwa [he] at hdvd
    rcases hq.dvd_mul.mp hprod with h | h
    · exact Or.inl ((Nat.prime_dvd_prime_iff_eq hq (by norm_num)).mp h)
    rcases hq.dvd_mul.mp h with h | h
    · exact Or.inr (Or.inl ((Nat.prime_dvd_prime_iff_eq hq (by norm_num)).mp h))
    rcases hq.dvd_mul.mp h with h | h
    · exact Or.inr (Or.inr (Or.inl ((Nat.prime_dvd_prime_iff_eq hq (by norm_num)).mp h)))
    rcases hq.dvd_mul.mp h with h | h
    · exact Or.inr (Or.inr (Or.inr (Or.inl ((Nat.prime_dvd_prime_iff_eq hq (by norm_num)).mp h))))
    · exact Or.inr (Or.inr (Or.inr (Or.inr ((Nat.prime_dvd_prime_iff_eq hq prime_639533339).mp h))))
  rcases hfac with rfl | rfl | rfl | rfl | rfl
  · rw [show (65865678001877903 - 1) / 2 = 32932839000938951 from by norm_num,
      pow_eq_powModAux 254 _ _ (by norm_num)]
    decide
  · rw [show (65865678001877903 - 1) / 83 = 793562385564794 from by norm_num,
      pow_eq_powModAux 254 _ _ (by norm_num)]
    decide
  · rw [show (65865678001877903 - 1) / 379 = 173788068606538 from by norm_num,
      pow_eq_powModAux 254 _ _ (by norm_num)]
    decide
  · rw [show (65865678001877903 - 1) / 1637 = 40235600489846 from by norm_num,
      pow_eq_powModAux 254 _ _ (by norm_num)]
    decide
  · rw [show (65865678001877903 - 1) / 639533339 = 102990218 from by norm_num,
      pow_eq_powModAux 254 _ _ (by norm_num)]
    decide

theorem prime_13818364434197438864469338081 : Nat.Prime 13818364434197438864469338081 := by
  haveI : NeZero 13818364434197438864469338081 := ⟨by norm_num⟩
  have ha : (3 : ZMod 13818364434197438864469338081) ^ (13818364434197438864469338081 - 1) = 1 := by
    rw [pow_eq_powModAux 254 _ _ (by norm_num)]
    decide
  refine lucas_primality 13818364434197438864469338081 3 ha ?_
  intro q hq hdvd
  have hfac : q = 2 ∨ q = 5 ∨ q = 823 ∨ q = 1593227 ∨ q = 65865678001877903 := by
    have hprod : q ∣ 2 ^ 5 * (5 * (823 * (1593227 * (65865678001877903)))) := by
      have he : (13818364434197438864469338081 - 1 : Nat) = 2 ^ 5 * (5 * (823 * (1593227 * (65865678001877903)))) := by norm_num
      rwa [he] at hdvd
    rcases hq.dvd_mul.mp hprod with h | h
    · exact Or.inl ((Nat.prime_dvd_prime_iff_eq hq (by norm_num)).mp (hq.dvd_of_dvd_pow h))
    rcases hq.dvd_mul.mp h with h | h
    · exact Or.inr (Or.inl ((Nat.prime_dvd_prime_iff_eq hq (by norm_num)).mp h))
    rcases hq.dvd_mul.mp h with h | h
    · exact Or.inr (Or.inr (Or.inl ((Nat.prime_dvd_prime_iff_eq hq (by norm_num)).mp h)))
    rcases hq.dvd_mul.mp h with h | h
    · exact Or.inr (Or.inr (Or.inr (Or.inl ((Nat.prime_dvd_prime_iff_eq hq (by norm_num)).mp h))))
    · exact Or.inr (Or.inr (Or.inr (Or.inr ((Nat.prime_dvd_prime_iff_eq hq prime_65865678001877903).mp h))))
  rcases hfac with rfl | rfl | rfl | rfl | rfl
  · rw [show (13818364434197438864469338081 - 1) / 2 = 6909182217098719432234669040 from by norm_num,
      pow_eq_powModAux 254 _ _ (by norm_num)]
    decide
  · rw [show (13818364434197438864469338081 - 1) / 5 = 2763672886839487772893867616 from by norm_num,
      pow_eq_powModAux 254 _ _ (by norm_num)]
    decide
  · rw [show (13818364434197438864469338081 - 1) / 823 = 16790236250543668122076960 from by norm_num,
      pow_eq_powModAux 254 _ _ (by norm_num)]
    decide
  · rw [show (13818364434197438864469338081 - 1) / 1593227 = 8673192479287282267040 from by norm_num,
      pow_eq_powModAux 254 _ _ (by norm_num)]
    decide
  · rw [show (13818364434197438864469338081 - 1) / 65865678001877903 = 209796131360 from by norm_num,
      pow_eq_powModAux 254 _ _ (by norm_num)]
    decide

theorem prime_21888242871839275222246405745257275088548364400416034343698204186575808495617 : Nat.Prime 21888242871839275222246405745257275088548364400416034343698204186575808495617 := by
  haveI : NeZero 21888242871839275222246405745257275088548364400416034343698204186575808495617 := ⟨by norm_num⟩
  have ha : (5 : ZMod 21888242871839275222246405745257275088548364400416034343698204186575808495617) ^ (21888242871839275222246405745257275088548364400416034343698204186575808495617 - 1) = 1 := by
    rw [pow_eq_powModAux 254 _ _ (by norm_num)]
    decide
  refine lucas_primality 21888242871839275222246405745257275088548364400416034343698204186575808495617 5 ha ?_
  intro q hq hdvd
  have hfac : q = 2 ∨ q = 3 ∨ q = 13 ∨ q = 29 ∨ q = 983 ∨ q = 11003 ∨ q = 237073 ∨ q = 405928799 ∨ q = 1670836401704629 ∨ q = 13818364434197438864469338081 := by
    have hprod : q ∣ 2 ^ 28 * (3 ^ 2 * (13 * (29 * (983 * (11003 * (237073 * (405928799 * (1670836401704629 * (13818364434197438864469338081))))))))) := by
      have he : (21888242871839275222246405745257275088548364400416034343698204186575808495617 - 1 : Nat) = 2 ^ 28 * (3 ^ 2 * (13 * (29 * (983 * (11003 * (237073 * (405928799 * (1670836401704629 * (13818364434197438864469338081))))))))) := by norm_num
      rwa [he] at hdvd
    rcases hq.dvd_mul.mp hprod with h | h
    · exact Or.inl ((Nat.prime_dvd_prime_iff_eq hq (by norm_num)).mp (hq.dvd_of_dvd_pow h))
    rcases hq.dvd_mul.mp h with h | h
    · exact Or.inr (Or.inl ((Nat.prime_dvd_prime_iff_eq hq (by norm_num)).mp (hq.dvd_of_dvd_pow h)))
    rcases hq.dvd_mul.mp h with h | h
    · exact Or.inr (Or.inr (Or.inl ((Nat.prime_dvd_prime_iff_eq hq (by norm_num)).mp h)))
    rcases hq.dvd_mul.mp h with h | h
    · exact Or.inr (Or.inr (Or.inr (Or.inl ((Nat.prime_dvd_prime_iff_eq hq (by norm_num)).mp h))))
    rcases hq.dvd_mul.mp h with h | h
    · exact Or.inr (Or.inr (Or.inr (Or.inr (Or.inl ((Nat.prime_dvd_prime_iff_eq hq (by norm_num)).mp h)))))
    rcases hq.dvd_mul.mp h with h | h
    · exact Or.inr (Or.inr (Or.inr (Or.inr (Or.inr (Or.inl ((Nat.prime_dvd_prime_iff_eq hq (by norm_num)).mp h))))))
    rcases hq.dvd_mul.mp h with h | h
    · exact Or.inr (Or.inr (Or.inr (Or.inr (Or.inr (Or.inr (Or.inl ((Nat.prime_dvd_prime_iff_eq hq (by norm_num)).mp h)))))))
    rcases hq.dvd_mul.mp h with h | h
    · exact Or.inr (Or.inr (Or.inr (Or.inr (Or.inr (Or.inr (Or.inr (Or.inl ((Nat.prime_dvd_prime_iff_eq hq prime_405928799).mp h))))))))
    rcases hq.dvd_mul.mp h with h | h
    · exact Or.inr (Or.inr (Or.inr (Or.inr (Or.inr (Or.inr (Or.inr (Or.inr (Or.inl ((Nat.prime_dvd_prime_iff_eq hq prime_1670836401704629).mp h)))))))))
    · exact Or.inr (Or.inr (Or.inr (Or.inr (Or.inr (Or.inr (Or.inr (Or.inr (Or.inr ((Nat.prime_dvd_prime_iff_eq hq prime_13818364434197438864469338081).mp h)))))))))
  rcases hfac with rfl | rfl | rfl | rfl | rfl | rfl | rfl | rfl | rfl | rfl
  · rw [show (21888242871839275222246405745257275088548364400416034343698204186575808495617 - 1) / 2 = 10944121435919637611123202872628637544274182200208017171849102093287904247808 from by norm_num,
      pow_eq_powModAux 254 _ _ (by norm_num)]
    decide
  · rw [show (21888242871839275222246405745257275088548364400416034343698204186575808495617 - 1) / 3 = 7296080957279758407415468581752425029516121466805344781232734728858602831872 from by norm_num,
      pow_eq_powModAux 254 _ _ (by norm_num)]
    decide
  · rw [show (21888242871839275222246405745257275088548364400416034343698204186575808495617 - 1) / 13 = 1683710990141482709403569672712098083734489569262771872592169552813523730432 from by norm_num,
      pow_eq_powModAux 254 _ _ (by norm_num)]
    decide
  · rw [show (21888242871839275222246405745257275088548364400416034343698204186575808495617 - 1) / 29 = 754766995580664662836082956733009485812012565531587391162007040916407189504 from by norm_num,
      pow_eq_powModAux 254 _ _ (by norm_num)]
    decide
  · rw [show (21888242871839275222246405745257275088548364400416034343698204186575808495617 - 1) / 983 = 22266778099531307448877320188461114027007491760341845720954429487869591552 from by norm_num,
      pow_eq_powModAux 254 _ _ (by norm_num)]
    decide
  · rw [show (21888242871839275222246405745257275088548364400416034343698204186575808495617 - 1) / 11003 = 1989297725333025104266691424634851866631679033028813445760083994053967872 from by norm_num,
      pow_eq_powModAux 254 _ _ (by norm_num)]
    decide
  · rw [show (21888242871839275222246405745257275088548364400416034343698204186575808495617 - 1) / 237073 = 92327016875980289709272695521030547926370208334209439049146061283131392 from by norm_num,
      pow_eq_powModAux 254 _ _ (by norm_num)]
    decide
  · rw [show (21888242871839275222246405745257275088548364400416034343698204186575808495617 - 1) / 405928799 = 53921384552563552462426805409431605981098090062873401459989056323584 from by norm_num,
      pow_eq_powModAux 254 _ _ (by norm_num)]
    decide
  · rw [show (21888242871839275222246405745257275088548364400416034343698204186575808495617 - 1) / 1670836401704629 = 13100171177446423556613374118717413492986637444144570673659904 from by norm_num,
      pow_eq_powModAux 254 _ _ (by norm_num)]
    decide
  · rw [show (21888242871839275222246405745257275088548364400416034343698204186575808495617 - 1) / 13818364434197438864469338081 = 1583996642733683218748855262055434666238317428736 from by norm_num,
      pow_eq_powModAux 254 _ _ (by norm_num)]
    decide

/-- P is prime (verified by a Pratt/Lucas certificate chain). -/
theorem P_prime : Nat.Prime P := prime_21888242871839275222246405745257275088548364400416034343698204186575808495617

instance : Fact (Nat.Prime P) := ⟨P_prime⟩

/-! ## Field-level helper lemmas -/

theorem inverse_eq_inv (x : Fr) (hx : x ≠ 0) : inverse x = some x⁻¹ := by
  rw [inverse, if_neg hx]
  congr 1
  have h := pow_eq_powModAux (m := P) 254 x (P - 2) (by norm_num [P])
  rw [← h]
  refine eq_inv_of_mul_eq_one_left ?_
  have h1 : x ^ (P - 2) * x = x ^ (P - 1) := by
    rw [← pow_succ]
    congr 1
  rw [h1]
  exact ZMod.pow_card_sub_one_eq_one hx

theorem inverse_isSome_iff (x : Fr) : (inverse x).isSome = true ↔ x ≠ 0 := by
  constructor
  · intro h hx
    subst hx
    simp [inverse] at h
  · intro hx
    rw [inverse_eq_inv x hx]
    rfl

theorem sqrtNegOne_sq : sqrtNegOne * sqrtNegOne = curveA := by decide

/-- d is not a square in `Fr`: its Euler power is `-1`. -/
theorem curveD_not_square (r : Fr) : r * r ≠ curveD := by
  intro hr
  have hr0 : r ≠ 0 := by
    intro h
    rw [h] at hr
    revert hr
    decide
  have hferm : r ^ (P - 1) = 1 := ZMod.pow_card_sub_one_eq_one hr0
  have heuler : curveD ^ ((P - 1) / 2) = 1 := by
    rw [← hr, ← pow_two, ← pow_mul]
    rw [show 2 * ((P - 1) / 2) = P - 1 from by norm_num [P]]
    exact hferm
  rw [pow_eq_powModAux 254 _ _ (by norm_num [P])] at heuler
  revert heuler
  decide

theorem isOnCurve_iff (x y : Fr) :
    isOnCurve x y = true ↔
      curveA * (x * x) + y * y = 1 + curveD * (x * x) * (y * y) := by
  simp [isOnCurve]

/-- The Bernstein–Lange key identity behind completeness of the twisted
Edwards addition law, for any square root `s` of `a`. -/
theorem edwards_key_identity (a d s x1 y1 x2 y2 : Fr) (hs : s * s = a)
    (h1 : a * (x1 * x1) + y1 * y1 = 1 + d * (x1 * x1) * (y1 * y1))
    (h2 : a * (x2 * x2) + y2 * y2 = 1 + d * (x2 * x2) * (y2 * y2))
    (he : d * x1 * x2 * y1 * y2 * (d * x1 * x2 * y1 * y2) = 1) :
    (s * x1 + d * x1 * x2 * y1 * y2 * y1) ^ 2 = d * (x1 * y1 * (s * x2 + y2)) ^ 2 := by
  linear_combination (x1 * x1 - d * x1 * x1 * y1 * y1 * x2 * x2) * hs + h1 -
    (d * x1 * x1 * y1 * y1) * h2 + (y1 * y1 - 1) * he

theorem sq_eq_curveD_contra (A B : Fr) (hB : B ≠ 0) (h : A ^ 2 = curveD * B ^ 2) :
    False := by
  apply curveD_not_square (A * B⁻¹)
  field_simp
  linear_combination h

/-- Completeness: two on-curve points can never make `d·x1·x2·y1·y2 = ±1`. -/
theorem edwards_complete (x1 y1 x2 y2 : Fr)
    (h1 : isOnCurve x1 y1 = true) (h2 : isOnCurve x2 y2 = true)
    (he : curveD * x1 * x2 * y1 * y2 * (curveD * x1 * x2 * y1 * y2) = 1) : False := by
  rw [isOnCurve_iff] at h1 h2
  have hx2 : x2 ≠ 0 := by
    intro h
    rw [h] at he
    simp at he
  have hx1 : x1 ≠ 0 := by
    intro h
    rw [h] at he
    simp at he
  have hy1 : y1 ≠ 0 := by
    intro h
    rw [h] at he
    simp at he
  have hs2 : -sqrtNegOne * -sqrtNegOne = curveA := by
    rw [neg_mul_neg]
    exact sqrtNegOne_sq
  by_cases hc : sqrtNegOne * x2 + y2 = 0
  · have hc2 : -sqrtNegOne * x2 + y2 ≠ 0 := by
      intro h
      apply hx2
      have hsum : sqrtNegOne * x2 + y2 - (-sqrtNegOne * x2 + y2) = 0 := by
        rw [hc, h, sub_zero]
      have h2s : (2 : Fr) * sqrtNegOne * x2 = 0 := by linear_combination hsum
      have h20 : (2 : Fr) * sqrtNegOne ≠ 0 := by decide
      exact (mul_eq_zero.mp h2s).elim (fun hh => absurd hh h20) id
    have key := edwards_key_identity curveA curveD (-sqrtNegOne) x1 y1 x2 y2 hs2 h1 h2 he
    exact sq_eq_curveD_contra _ _ (by
      intro h
      rcases mul_eq_zero.mp h with h' | h'
      · rcases mul_eq_zero.mp h' with h'' | h''
        · exact hx1 h''
        · exact hy1 h''
      · exact hc2 h') key
  · have key := edwards_key_identity curveA curveD sqrtNegOne x1 y1 x2 y2 sqrtNegOne_sq h1 h2 he
    exact sq_eq_curveD_contra _ _ (by
      intro h
      rcases mul_eq_zero.mp h with h' | h'
      · rcases mul_eq_zero.mp h' with h'' | h''
        · exact hx1 h''
        · exact hy1 h''
      · exact hc h') key

/-- For on-curve operands the two denominator inversions in `point_add`
always succeed: the unwraps are unreachable. -/
theorem pointAdd_isSome_of_isOnCurve (x1 y1 x2 y2 : Fr)
    (h1 : isOnCurve x1 y1 = true) (h2 : isOnCurve x2 y2 = true) :
    (pointAdd (x1, y1) (x2, y2)).isSome = true := by
  by_cases hid1 : x1 = 0 ∧ y1 = 1
  · simp [pointAdd, hid1]
  by_cases hid2 : x2 = 0 ∧ y2 = 1
  · simp [pointAdd, hid1, hid2]
  have hplus : (1 : Fr) + curveD * (x1 * y2 * (y1 * x2)) ≠ 0 := by
    intro h
    apply edwards_complete x1 y1 x2 y2 h1 h2
    have hT : curveD * x1 * x2 * y1 * y2 = -1 := by linear_combination h
    rw [hT]
    norm_num
  have hminus : (1 : Fr) - curveD * (x1 * y2 * (y1 * x2)) ≠ 0 := by
    intro h
    apply edwards_complete x1 y1 x2 y2 h1 h2
    have hT : curveD * x1 * x2 * y1 * y2 = 1 := by linear_combination -h
    rw [hT]
    norm_num
  simp only [pointAdd, if_neg hid1, if_neg hid2]
  rw [inverse_eq_inv _ hplus, inverse_eq_inv _ hminus]
  rfl

theorem powModAux_lt (m : Nat) (hm : 1 < m) :
    ∀ fuel b e, powModAux m fuel b e < m := by
  intro fuel
  induction fuel with
  | zero => intro b e; simpa [powModAux] using Nat.mod_lt _ (by omega)
  | succ n ih =>
      intro b e
      rw [powModAux]
      by_cases h0 : e = 0
      · simpa [h0] using Nat.mod_lt _ (by omega)
      · simp only [h0, if_false]
        by_cases h1 : e % 2 = 1
        · simpa [h1] using Nat.mod_lt _ (by omega)
        · simpa [h1] using ih (b * b % m) (e / 2)

theorem sqrtField_sound (n r : Fr) (h : sqrtField n = some r) : r * r = n := by
  rw [sqrtField] at h
  by_cases h0 : n = 0
  · rw [if_pos h0] at h
    cases h
    rw [h0]
    ring
  · rw [if_neg h0] at h
    by_cases hleg : powModAux P 254 n.val ((P - 1) / 2) ≠ 1
    · rw [if_pos hleg] at h
      cases h
    · rw [if_neg hleg] at h
      cases hfind : (List.range' 0 P).find? (fun k => k * k % P = n.val) with
      | none => rw [hfind] at h; cases h
      | some k =>
          rw [hfind] at h
          cases h
          have hpred := List.find?_some hfind
          have hkk : k * k % P = n.val := by simpa using hpred
          calc (k : Fr) * (k : Fr) = ((k * k : Nat) : Fr) := by push_cast; ring
            _ = ((k * k % P : Nat) : Fr) := (ZMod.natCast_mod _ _).symm
            _ = ((n.val : Nat) : Fr) := by rw [hkk]
            _ = n := ZMod.natCast_zmod_val n

theorem sqrtField_complete (x : Fr) : (sqrtField (x * x)).isSome = true := by
  by_cases h0 : x * x = 0
  · simp [sqrtField, h0]
  · have hx : x ≠ 0 := fun h => h0 (by rw [h]; ring)
    have hleg : powModAux P 254 (x * x).val ((P - 1) / 2) = 1 := by
      have hcast : ((powModAux P 254 (x * x).val ((P - 1) / 2) : Nat) : Fr) = 1 := by
        rw [← pow_eq_powModAux 254 _ _ (by norm_num [P])]
        rw [← pow_two, ← pow_mul]
        rw [show 2 * ((P - 1) / 2) = P - 1 from by norm_num [P]]
        exact ZMod.pow_card_sub_one_eq_one hx
      have hlt : powModAux P 254 (x * x).val ((P - 1) / 2) < P :=
        powModAux_lt P (by norm_num [P]) _ _ _
      have hv := congrArg ZMod.val hcast
      rwa [ZMod.val_cast_of_lt hlt, ZMod.val_one] at hv
    rw [sqrtField, if_neg h0, if_neg (by simp [hleg])]
    cases hfind : (List.range' 0 P).find? (fun k => k * k % P = (x * x).val) with
    | none =>
        exfalso
        rw [List.find?_eq_none] at hfind
        apply hfind (x.val) (by
          rw [List.mem_range'_1]
          exact ⟨Nat.zero_le _, by simpa using ZMod.val_lt x⟩)
        simp [ZMod.val_mul]
    | some k => rfl

theorem xor_one_even (n : Nat) (h : n % 2 = 0) : n ^^^ 1 = n + 1 := by
  obtain ⟨k, rfl⟩ : ∃ k, n = 2 * k := ⟨n / 2, by omega⟩
  have h1 : 2 * k = Nat.bit false k := by simp [Nat.bit]
  have h2 : (1 : Nat) = Nat.bit true 0 := rfl
  rw [h1, h2, Nat.xor_bit]
  simp [Nat.bit]

theorem xor_one_odd (n : Nat) (h : n % 2 = 1) : n ^^^ 1 = n - 1 := by
  obtain ⟨k, rfl⟩ : ∃ k, n = 2 * k + 1 := ⟨n / 2, by omega⟩
  have h1 : 2 * k + 1 = Nat.bit true k := by simp [Nat.bit]
  have h2 : (1 : Nat) = Nat.bit true 0 := rfl
  rw [h1, h2, Nat.xor_bit]
  simp [Nat.bit]

theorem shiftRight_div_two (cid l : Nat) : cid >>> l / 2 = cid >>> (l + 1) := by
  rw [Nat.shiftRight_eq_div_pow, Nat.shiftRight_eq_div_pow, Nat.div_div_eq_div_mul,
    pow_succ]

theorem zeroHashesAux_spec :
    ∀ n k, zeroHashesAux n ((List.range (k + 1)).map zh) =
      (List.range (k + 1 + n)).map zh := by
  intro n
  induction n with
  | zero => intro k; simp [zeroHashesAux]
  | succ m ih =>
      intro k
      rw [zeroHashesAux]
      have hlast : ((List.range (k + 1)).map zh).getLast?.getD 0 = zh k := by
        rw [List.range_succ, List.map_append]
        simp
      rw [hlast]
      have happ : (List.range (k + 1)).map zh ++ [hashWithDomain (zh k) (zh k) .merkle] =
          (List.range (k + 1 + 1)).map zh := by
        symm
        rw [List.range_succ, List.map_append]
        rfl
      rw [happ, ih (k + 1)]
      have harg : k + 1 + 1 + m = k + 1 + (m + 1) := by omega
      rw [harg]

theorem zeroHashesList_eq : zeroHashesList = (List.range 33).map zh := by
  have h0 : ([0] : List Fr) = (List.range 1).map zh := rfl
  rw [zeroHashesList, TREE_DEPTH_DEFAULT, h0, zeroHashesAux_spec]

theorem zeroHashesList_get?_le (l : Nat) (h : l ≤ 32) :
    zeroHashesList.get? l = some (zh l) := by
  have hlt : l < 33 := by omega
  rw [zeroHashesList_eq, List.get?_eq_getElem?]
  simp [List.getElem?_map, List.getElem?_range, hlt]

theorem zeroHashesList_get?_gt (l : Nat) (h : 32 < l) :
    zeroHashesList.get? l = none := by
  rw [zeroHashesList_eq, List.get?_eq_getElem?]
  rw [List.getElem?_eq_none (by simp; omega)]

theorem naiveNode_empty (t : LocalMerkleTree) :
    ∀ l pos, t.leaves.length ≤ pos <<< l → naiveNode t l pos = zh l := by
  intro l
  induction l with
  | zero =>
      intro pos h
      rw [Nat.shiftLeft_eq, pow_zero, mul_one] at h
      rw [naiveNode, if_neg (by omega)]
      rfl
  | succ m ih =>
      intro pos h
      rw [Nat.shiftLeft_eq] at h
      have hl : t.leaves.length ≤ (pos * 2) <<< m := by
        rw [Nat.shiftLeft_eq]
        calc t.leaves.length ≤ pos * 2 ^ (m + 1) := h
          _ = pos * 2 * 2 ^ m := by ring
      have hr : t.leaves.length ≤ (pos * 2 + 1) <<< m := by
        rw [Nat.shiftLeft_eq]
        calc t.leaves.length ≤ pos * 2 * 2 ^ m := by
              rw [Nat.shiftLeft_eq] at hl; exact hl
          _ ≤ (pos * 2 + 1) * 2 ^ m := by
              have := Nat.pow_pos (n := m) (by omega : 0 < 2)
              nlinarith
      rw [naiveNode, ih _ hl, ih _ hr]
      rfl

theorem node_eq_naiveNode (t : LocalMerkleTree) :
    ∀ l pos, l ≤ 32 → t.node l pos = some (naiveNode t l pos) := by
  intro l
  induction l with
  | zero =>
      intro pos _
      rw [LocalMerkleTree.node, naiveNode]
      by_cases h : pos < t.leaves.length
      · rw [if_pos h, if_pos h]
      · rw [if_neg h, if_neg h, zeroHashesList_get?_le 0 (by omega)]
        rfl
  | succ m ih =>
      intro pos hle
      rw [LocalMerkleTree.node, naiveNode]
      by_cases h : t.leaves.length ≤ pos <<< (m + 1)
      · rw [if_pos h, zeroHashesList_get?_le _ hle]
        have h1 : t.leaves.length ≤ (pos * 2) <<< m := by
          rw [Nat.shiftLeft_eq] at h ⊢
          calc t.leaves.length ≤ pos * 2 ^ (m + 1) := h
            _ = pos * 2 * 2 ^ m := by ring
        rw [show hashWithDomain (naiveNode t m (pos * 2)) (naiveNode t m (pos * 2 + 1))
              Poseidon2Domain.merkle = naiveNode t (m + 1) pos from rfl]
        rw [naiveNode_empty t (m + 1) pos h]
      · rw [if_neg h, ih _ (by omega), ih _ (by omega)]
        rfl

theorem verifyLoop_naive (t : LocalMerkleTree) :
    ∀ d l cid,
      verifyLoop ((List.range' l d).map (fun j => naiveNode t j ((cid >>> j) ^^^ 1)))
        (cid >>> l) (naiveNode t l (cid >>> l)) =
      naiveNode t (l + d) (cid >>> (l + d)) := by
  intro d
  induction d with
  | zero => intro l cid; simp [verifyLoop]
  | succ m ih =>
      intro l cid
      rw [List.range'_succ, List.map_cons, verifyLoop]
      rw [shiftRight_div_two]
      have hstep :
          (if (cid >>> l) % 2 = 0 then
            hashWithDomain (naiveNode t l (cid >>> l))
              (naiveNode t l ((cid >>> l) ^^^ 1)) .merkle
          else
            hashWithDomain (naiveNode t l ((cid >>> l) ^^^ 1))
              (naiveNode t l (cid >>> l)) .merkle) =
          naiveNode t (l + 1) (cid >>> (l + 1)) := by
        rw [naiveNode]
        rcases Nat.even_or_odd (cid >>> l) with hpar | hpar
        · have h2 : (cid >>> l) % 2 = 0 := Nat.even_iff.mp hpar
          rw [if_pos h2]
          have ha : cid >>> (l + 1) * 2 = cid >>> l := by
            rw [← shiftRight_div_two]
            omega
          have hb : cid >>> (l + 1) * 2 + 1 = (cid >>> l) ^^^ 1 := by
            rw [xor_one_even _ h2, ha]
          rw [hb, ha]
        · have h2 : (cid >>> l) % 2 = 1 := Nat.odd_iff.mp hpar
          rw [if_neg (by omega)]
          have ha : cid >>> (l + 1) * 2 = (cid >>> l) ^^^ 1 := by
            rw [xor_one_odd _ h2, ← shiftRight_div_two]
            omega
          have hb : cid >>> (l + 1) * 2 + 1 = cid >>> l := by
            rw [← shiftRight_div_two]
            omega
          rw [hb, ha]
      rw [hstep]
      have := ih (l + 1) cid
      rw [show l + 1 + m = l + (m + 1) from by omega] at this
      exact this

theorem siblingsLoop_eq (t : LocalMerkleTree) :
    ∀ d l cid, l + d ≤ 32 →
      t.siblingsLoop d l (cid >>> l) =
        some ((List.range' l d).map (fun j => naiveNode t j ((cid >>> j) ^^^ 1))) := by
  intro d
  induction d with
  | zero => intro l cid _; simp [LocalMerkleTree.siblingsLoop]
  | succ m ih =>
      intro l cid hle
      rw [LocalMerkleTree.siblingsLoop, node_eq_naiveNode t l _ (by omega)]
      rw [shiftRight_div_two, ih (l + 1) cid (by omega)]
      rw [List.range'_succ, List.map_cons]
      rfl

theorem buildProof_verifies (t : LocalMerkleTree) (cid : Nat) (hd : t.depth ≤ 32)
    (hcid2 : cid < 2 ^ t.depth) (hcid : cid < t.leaves.length) :
    ∃ pr : MerkleProof,
      t.buildProofByCids [cid] = some [pr] ∧
      pr.leafIndex = cid ∧ pr.path.length = t.depth + 1 ∧
      t.verifyProof pr = some true := by
  have hlatest : cid ≤ t.latestCid := by
    rw [LocalMerkleTree.latestCid]
    rw [if_neg (by simp [List.isEmpty_iff]; intro h; rw [h] at hcid; simp at hcid)]
    omega
  have hnode0 : t.node 0 cid = some (naiveNode t 0 cid) := node_eq_naiveNode t 0 cid (by omega)
  have hsibs : t.siblingsLoop t.depth 0 cid =
      some ((List.range' 0 t.depth).map (fun j => naiveNode t j ((cid >>> j) ^^^ 1))) := by
    have := siblingsLoop_eq t t.depth 0 cid (by omega)
    rwa [Nat.shiftRight_zero] at this
  refine ⟨⟨cid, naiveNode t 0 cid ::
    (List.range' 0 t.depth).map (fun j => naiveNode t j ((cid >>> j) ^^^ 1))⟩, ?_, rfl, ?_, ?_⟩
  · rw [LocalMerkleTree.buildProofByCids, if_neg (by simp)]
    simp only [List.mapM_cons, List.mapM_nil]
    rw [if_pos hlatest, hnode0, hsibs]
    rfl
  · simp
  · rw [LocalMerkleTree.verifyProof]
    rw [if_neg (by simp)]
    rw [LocalMerkleTree.root, node_eq_naiveNode t t.depth 0 hd]
    have hwalk : verifyLoop
        ((List.range' 0 t.depth).map (fun j => naiveNode t j ((cid >>> j) ^^^ 1))) cid
        (naiveNode t 0 cid) = naiveNode t t.depth 0 := by
      have := verifyLoop_naive t t.depth 0 cid
      rw [Nat.shiftRight_zero, Nat.zero_add] at this
      rw [this]
      congr 1
      rw [Nat.shiftRight_eq_div_pow]
      exact Nat.div_eq_of_lt hcid2
    simp only [List.drop_succ_cons, List.drop_zero, List.getD_cons_zero]
    simp [hwalk]

theorem leBytes_length : ∀ n v, (leBytes n v).length = n := by
  intro n
  induction n with
  | zero => intro v; rfl
  | succ m ih => intro v; simp [leBytes, ih]

theorem leBytesToNat_leBytes : ∀ n v, v < 256 ^ n → leBytesToNat (leBytes n v) = v := by
  intro n
  induction n with
  | zero => intro v hv; interval_cases v; rfl
  | succ m ih =>
      intro v hv
      rw [leBytes, leBytesToNat, ih (v / 256) (by
        rw [pow_succ] at hv
        omega)]
      omega

theorem getD_leBytes : ∀ n v i, i < n → (leBytes n v).getD i 0 = v / 256 ^ i % 256 := by
  intro n
  induction n with
  | zero => intro v i h; omega
  | succ m ih =>
      intro v i h
      match i with
      | 0 => simp [leBytes]
      | j + 1 =>
          rw [leBytes]
          have : (v % 256 :: leBytes m (v / 256)).getD (j + 1) 0 =
              (leBytes m (v / 256)).getD j 0 := rfl
          rw [this, ih (v / 256) j (by omega)]
          rw [Nat.div_div_eq_div_mul, pow_succ']

theorem mod_pow_succ_decomp (v n : Nat) :
    v % 256 ^ (n + 1) = v % 256 + 256 * (v / 256 % 256 ^ n) := by
  conv_lhs => rw [show v = 256 * (v / 256) + v % 256 from by omega]
  rw [pow_succ']
  rw [Nat.add_mod, Nat.mul_mod_mul_left]
  have h1 : v % 256 % (256 * 256 ^ n) = v % 256 := by
    apply Nat.mod_eq_of_lt
    have := Nat.pow_pos (n := n) (by omega : 0 < 2)
    have h256 : 0 < 256 ^ n := Nat.pos_pow_of_pos n (by omega)
    nlinarith [Nat.mod_lt v (show 0 < 256 by omega)]
  rw [h1]
  have h256 : 0 < 256 ^ n := Nat.pos_pow_of_pos n (by omega)
  have hlt : v / 256 % 256 ^ n < 256 ^ n := Nat.mod_lt _ h256
  have hr : v % 256 < 256 := Nat.mod_lt v (by omega)
  have hx : 256 * (v / 256 % 256 ^ n) + v % 256 < 256 * 256 ^ n := by nlinarith
  rw [Nat.mod_eq_of_lt hx]
  omega

theorem leBytesToNat_set_last :
    ∀ n v b, leBytesToNat ((leBytes (n + 1) v).set n b) = v % 256 ^ n + b * 256 ^ n := by
  intro n
  induction n with
  | zero =>
      intro v b
      simp [leBytes, leBytesToNat, Nat.mod_one]
  | succ m ih =>
      intro v b
      rw [leBytes]
      have hcons : (v % 256 :: leBytes (m + 1) (v / 256)).set (m + 1) b =
          v % 256 :: (leBytes (m + 1) (v / 256)).set m b := rfl
      rw [hcons, leBytesToNat, ih (v / 256) b]
      rw [mod_pow_succ_decomp, pow_succ']
      ring

theorem lexGtBE_concat :
    ∀ (A B : List Nat) (a b : Nat), A.length = B.length →
      lexGtBE (A ++ [a]) (B ++ [b]) = (lexGtBE A B || (A == B && decide (b < a))) := by
  intro A
  induction A with
  | nil =>
      intro B a b hlen
      match B, hlen with
      | [], _ =>
          simp only [List.nil_append, lexGtBE]
          by_cases h : b < a
          · rw [if_pos (by omega)]
            simp [h]
          · rw [if_neg (by omega)]
            by_cases h2 : a < b
            · rw [if_pos h2]
              simp [h]
            · rw [if_neg h2]
              simp [lexGtBE, h]
  | cons x A' ih =>
      intro B a b hlen
      match B with
      | y :: B' =>
          have hlen' : A'.length = B'.length := by simpa using hlen
          simp only [List.cons_append, lexGtBE]
          by_cases h1 : x > y
          · simp [lexGtBE, h1]
          · rw [if_neg h1]
            by_cases h2 : x < y
            · have hne : (x :: A' == y :: B') = false := by
                simp [List.cons_beq_cons]
                omega
              simp [lexGtBE, h1, h2, hne]
            · have hxy : x = y := by omega
              subst hxy
              rw [if_neg h2]
              simp only [List.append_eq]
              rw [ih B' a b hlen']
              have heq : (x :: A' == x :: B') = (A' == B') := by
                simp [List.cons_beq_cons]
              rw [if_neg h1, if_neg h2, heq]

theorem lexGtBE_leBytes :
    ∀ n v w, v < 256 ^ n → w < 256 ^ n →
      lexGtBE (leBytes n v).reverse (leBytes n w).reverse = decide (w < v) := by
  intro n
  induction n with
  | zero =>
      intro v w hv hw
      interval_cases v
      interval_cases w
      simp [leBytes, lexGtBE]
  | succ m ih =>
      intro v w hv hw
      have hv' : v / 256 < 256 ^ m := by
        rw [pow_succ] at hv
        omega
      have hw' : w / 256 < 256 ^ m := by
        rw [pow_succ] at hw
        omega
      rw [leBytes, leBytes, List.reverse_cons, List.reverse_cons]
      rw [lexGtBE_concat _ _ _ _ (by simp [leBytes_length])]
      rw [ih (v / 256) (w / 256) hv' hw']
      have hbeq : ((leBytes m (v / 256)).reverse == (leBytes m (w / 256)).reverse) =
          decide (v / 256 = w / 256) := by
        by_cases heq : v / 256 = w / 256
        · simp [heq]
        · have hne : (leBytes m (v / 256)).reverse ≠ (leBytes m (w / 256)).reverse := by
            intro hcon
            apply heq
            have := List.reverse_injective hcon
            have h1 := leBytesToNat_leBytes m (v / 256) hv'
            have h2 := leBytesToNat_leBytes m (w / 256) hw'
            rw [← h1, ← h2, this]
          simp [heq, hne]
      rw [hbeq]
      have hvd : v % 256 < 256 := Nat.mod_lt v (by omega)
      have hwd : w % 256 < 256 := Nat.mod_lt w (by omega)
      by_cases h1 : w / 256 < v / 256
      · have : w < v := by omega
        simp [h1, this]
      · by_cases h2 : v / 256 = w / 256
        · by_cases h3 : w % 256 < v % 256
          · have : w < v := by omega
            simp [h1, h2, h3, this]
          · have : ¬(w < v) := by omega
            simp [h1, h2, h3, this]
        · have : ¬(w < v) := by omega
          simp [h1, h2, this]

theorem val_lt_256_pow (x : Fr) : x.val < 256 ^ 32 := by
  have h := ZMod.val_lt x
  have h2 : P < 256 ^ 32 := by norm_num [P]
  omega

theorem isLex_eq_val (x : Fr) :
    isLexicographicallyLargest x = decide ((-x).val < x.val) := by
  rw [isLexicographicallyLargest, bigintToLeBytes, bigintToLeBytes]
  exact lexGtBE_leBytes 32 x.val (-x).val (val_lt_256_pow x) (val_lt_256_pow (-x))

theorem isLex_neg (x : Fr) (hx : x ≠ 0) :
    isLexicographicallyLargest (-x) = !isLexicographicallyLargest x := by
  rw [isLex_eq_val, isLex_eq_val, neg_neg]
  have hneg : (-x).val = P - x.val := by
    rw [ZMod.neg_val, if_neg hx]
  have hx0 : x.val ≠ 0 := fun h => hx (by rwa [← ZMod.val_eq_zero])
  have hlt := ZMod.val_lt x
  have hodd : P % 2 = 1 := by norm_num [P]
  by_cases h : P - x.val < x.val
  · have h2 : ¬(x.val < P - x.val) := by omega
    simp [hneg, h, h2]
  · have hne : P - x.val ≠ x.val := by omega
    have h2 : x.val < P - x.val := by omega
    simp [hneg, h, h2]

theorem byte_mask_facts :
    ∀ b, b < 64 →
      ((b ||| 128) &&& 128 ≠ 0) ∧ ((b &&& 127) &&& 128 = 0) ∧
      ((b ||| 128) &&& 127 = b) ∧ (b &&& 127 = b) := by decide

theorem sqrt_pm (x r : Fr) (h : r * r = x * x) : r = x ∨ r = -x := by
  have hfac : (r - x) * (r + x) = 0 := by linear_combination h
  rcases mul_eq_zero.mp hfac with h' | h'
  · left; linear_combination h'
  · right; linear_combination h'

theorem bind_ok {α β : Type} (v : α) (f : α → Except OcashError β) :
    Except.bind (.ok v) f = f v := rfl

theorem recoverX_of_onCurve (x y : Fr) (h : isOnCurve x y = true) :
    recoverXCoordinate y (isLexicographicallyLargest x) = .ok x := by
  have hcurve := (isOnCurve_iff x y).mp h
  have hden : curveA - curveD * (y * y) ≠ 0 := by
    intro hd
    have hfact : x * x * (curveA - curveD * (y * y)) = 1 - y * y := by
      linear_combination hcurve
    rw [hd, mul_zero] at hfact
    have hyy : y * y = 1 := by linear_combination hfact
    rw [hyy, mul_one] at hd
    have hda : curveA = curveD := by linear_combination hd
    revert hda
    decide
  rw [recoverXCoordinate]
  rw [inverse_eq_inv _ hden]
  rw [show okOr (some (curveA - curveD * (y * y))⁻¹) OcashError.noSquareRoot =
    .ok (curveA - curveD * (y * y))⁻¹ from rfl]
  rw [bind_ok]
  have hx2 : (1 - y * y) * (curveA - curveD * (y * y))⁻¹ = x * x := by
    field_simp
    linear_combination -hcurve
  simp only [hx2]
  have hsq := sqrtField_complete x
  obtain ⟨r, hr⟩ := Option.isSome_iff_exists.mp hsq
  rw [hr]
  rw [show okOr (some r) OcashError.noSquareRoot = .ok r from rfl, bind_ok]
  have hroot := sqrtField_sound _ _ hr
  rcases sqrt_pm x r hroot with rfl | rfl
  · rw [if_pos rfl]
  · by_cases hx0 : x = 0
    · subst hx0
      rw [neg_zero, if_pos rfl]
    · rw [isLex_neg x hx0]
      rw [if_neg (by cases isLexicographicallyLargest x <;> simp)]
      rw [neg_neg]

theorem getD_set_self (l : List Nat) (i a : Nat) (h : i < l.length) :
    (l.set i a).getD i 0 = a := by
  rw [List.getD_eq_getElem?_getD, List.getElem?_set_self', List.getElem?_eq_getElem h]
  rfl

theorem fromLe_set31_val (y : Fr) (b : Nat) (hb : b = y.val / 256 ^ 31) :
    fromLeBytesModOrder ((leBytes 32 y.val).set 31 b) = y := by
  rw [fromLeBytesModOrder]
  rw [show (32 : Nat) = 31 + 1 from rfl, leBytesToNat_set_last 31 y.val b]
  subst hb
  have hdecomp : y.val % 256 ^ 31 + y.val / 256 ^ 31 * 256 ^ 31 = y.val := by
    have := Nat.mod_add_div y.val (256 ^ 31)
    omega
  rw [hdecomp]
  exact ZMod.natCast_zmod_val y

theorem decompress_of_set (x y : Fr) (h : isOnCurve x y = true) (B : Nat)
    (hsign : (decide (B &&& 128 ≠ 0) : Bool) = isLexicographicallyLargest x)
    (hmask : B &&& 127 = y.val / 256 ^ 31) :
    decompressPoint ((leBytes 32 y.val).set 31 B) = .ok (x, y) := by
  have hlen : 31 < ((leBytes 32 y.val).set 31 B).length := by
    simp [leBytes_length]
  have hgetD : ((leBytes 32 y.val).set 31 B).getD 31 0 = B := by
    rw [getD_set_self]
    simp [leBytes_length]
  rw [decompressPoint]
  simp only [hgetD, List.set_set, hsign, hmask]
  rw [fromLe_set31_val y _ rfl]
  rw [recoverX_of_onCurve x y h, bind_ok, if_pos h]

theorem compress_decompress_aux (x y : Fr) (h : isOnCurve x y = true) :
    ∃ c, compressPoint x y = .ok c ∧ decompressPoint c = .ok (x, y) := by
  have hb31lt : y.val / 256 ^ 31 < 64 := by
    have hval := ZMod.val_lt y
    have hP : P < 64 * 256 ^ 31 := by norm_num [P]
    have h31 : 0 < 256 ^ 31 := Nat.pos_pow_of_pos 31 (by omega)
    rw [Nat.div_lt_iff_lt_mul h31]
    calc y.val < P := hval
      _ ≤ 64 * 256 ^ 31 := by omega
  have hgetD : (leBytes 32 y.val).getD 31 0 = y.val / 256 ^ 31 := by
    rw [getD_leBytes 32 y.val 31 (by omega)]
    exact Nat.mod_eq_of_lt (by omega)
  obtain ⟨hm1, hm2, hm3, hm4⟩ := byte_mask_facts (y.val / 256 ^ 31) hb31lt
  rw [compressPoint, if_pos h]
  cases hlex : isLexicographicallyLargest x with
  | true =>
      rw [if_pos rfl]
      refine ⟨_, rfl, ?_⟩
      rw [bigintToLeBytes, hgetD]
      apply decompress_of_set x y h
      · rw [hlex]
        simpa using hm1
      · exact hm3
  | false =>
      rw [if_neg (by simp)]
      refine ⟨_, rfl, ?_⟩
      rw [bigintToLeBytes, hgetD]
      apply decompress_of_set x y h
      · rw [hlex]
        simpa using hm2
      · rw [hm4, hm4]

/-! ## Claim theorems -/

/-- C4 (counterexample): with empty inputs and no seed,
`hash_sequence_with_domain` does not return a tagged error value — it panics
(the `expect` call), modelled by `none`; the return type `Fr` has no error
channel at all. -/
theorem c4_counterexample : hashSequenceWithDomain [] 0 none = none := rfl

/-- C4 (amended): for every domain, `hash_sequence_with_domain` applied to an
empty input slice with no seed panics (`expect`), modelled as `none`; it does
not return a tagged failure. -/
theorem c4_empty_no_seed_panics :
    ∀ d : Fr, hashSequenceWithDomain [] d none = none := fun _ => rfl

/-- C5: the folding rules of `hash_sequence_with_domain`: empty inputs with a
seed return the seed; a single input with no seed hashes it against zero; with
a seed the fold starts from `hash_domain(seed, inputs[0])` and consumes the
tail; with no seed it starts from `hash_domain(inputs[0], inputs[1])` and
consumes the rest. -/
theorem c5_hash_sequence_folding :
    (∀ (d s : Fr), hashSequenceWithDomain [] d (some s) = some s) ∧
    (∀ (d x : Fr), hashSequenceWithDomain [x] d none = some (hashDomain 0 x d)) ∧
    (∀ (d s x : Fr) (rest : List Fr),
      hashSequenceWithDomain (x :: rest) d (some s) =
        some (rest.foldl (fun acc y => hashDomain acc y d) (hashDomain s x d))) ∧
    (∀ (d x y : Fr) (rest : List Fr),
      hashSequenceWithDomain (x :: y :: rest) d none =
        some (rest.foldl (fun acc y => hashDomain acc y d) (hashDomain x y d))) := by
  refine ⟨fun d s => rfl, fun d x => rfl, ?_, ?_⟩
  · intro d s x rest
    simp [hashSequenceWithDomain]
  · intro d x y rest
    simp [hashSequenceWithDomain]

/-- C7: the commitment is the `Record`-domain sequence hash of
`[pk.x, pk.y, blinding, asset_id, amount + (is_frozen ? 2^128 : 0)]` with no
seed; equivalently, the explicit four-step fold. -/
theorem c7_commitment_folds :
    ∀ (pkx pky bl aid amt : Fr) (froz : Bool),
      commitment pkx pky bl aid amt froz =
        hashSequenceWithDomain
          [pkx, pky, bl, aid, amt + (if froz then (2 ^ 128 : Fr) else 0)]
          Poseidon2Domain.record.value none ∧
      commitment pkx pky bl aid amt froz =
        some (hashDomain
          (hashDomain
            (hashDomain (hashDomain pkx pky Poseidon2Domain.record.value) bl
              Poseidon2Domain.record.value)
            aid Poseidon2Domain.record.value)
          (amt + (if froz then (2 ^ 128 : Fr) else 0))
          Poseidon2Domain.record.value) := by
  intro pkx pky bl aid amt froz
  have hfb : frozenBitConst = (2 : Fr) ^ 128 := by decide
  cases froz with
  | true =>
      constructor
      · simp [commitment, hfb]
      · simp [commitment, hfb, hashSequenceWithDomain]
  | false =>
      constructor
      · simp [commitment]
      · simp [commitment, hashSequenceWithDomain]

/-- C9 (counterexample): at level 33 the node evaluation panics (the 33-entry
`zero_hashes` table is indexed out of bounds), while the naive hash-of-children
value is defined; likewise the root of an empty depth-33 tree panics. -/
theorem c9_counterexample :
    (⟨32, []⟩ : LocalMerkleTree).node 33 0 = none ∧
    (((⟨32, []⟩ : LocalMerkleTree).node 32 0).bind fun L =>
      ((⟨32, []⟩ : LocalMerkleTree).node 32 1).map fun R =>
        hashWithDomain L R .merkle).isSome = true ∧
    (⟨33, []⟩ : LocalMerkleTree).root = none := by
  refine ⟨by decide, by decide, by decide⟩

/-- C9 (amended): for levels `1 ≤ ℓ ≤ 32` the short-circuited node evaluation
equals the naive recursion (every empty leaf `0`, every internal node the
Merkle-domain hash of its children); the zero-hash table satisfies
`Z[0] = 0` and `Z[ℓ] = hash(Z[ℓ-1], Z[ℓ-1], Merkle)`; and the root of a tree
with zero leaves and depth `≤ 32` is `Z[depth]`. -/
theorem c9_node_refines_naive :
    (∀ (t : LocalMerkleTree) (l pos : Nat), l ≤ 32 →
      t.node l pos = some (naiveNode t l pos)) ∧
    (∀ (t : LocalMerkleTree) (l pos : Nat), 1 ≤ l → l ≤ 32 →
      t.node l pos = ((t.node (l - 1) (2 * pos)).bind fun L =>
        (t.node (l - 1) (2 * pos + 1)).map fun R => hashWithDomain L R .merkle)) ∧
    zh 0 = 0 ∧
    (∀ l : Nat, 1 ≤ l → zh l = hashWithDomain (zh (l - 1)) (zh (l - 1)) .merkle) ∧
    (∀ t : LocalMerkleTree, t.leaves = [] → t.depth ≤ 32 →
      t.root = some (zh t.depth)) := by
  refine ⟨node_eq_naiveNode, ?_, rfl, ?_, ?_⟩
  · intro t l pos h1 h2
    match l, h1 with
    | m + 1, _ =>
        simp only [Nat.add_sub_cancel]
        rw [node_eq_naiveNode t (m + 1) pos h2,
          node_eq_naiveNode t m (2 * pos) (by omega),
          node_eq_naiveNode t m (2 * pos + 1) (by omega)]
        have hstep : naiveNode t (m + 1) pos =
            hashWithDomain (naiveNode t m (2 * pos)) (naiveNode t m (2 * pos + 1))
              .merkle := by
          rw [naiveNode, Nat.mul_comm pos 2]
        rw [hstep]
        rfl
  · intro l hl
    match l, hl with
    | m + 1, _ => rfl
  · intro t hleaves hdepth
    rw [LocalMerkleTree.root, node_eq_naiveNode t t.depth 0 hdepth]
    rw [naiveNode_empty t t.depth 0 (by rw [hleaves]; simp)]

/-- C9 (witness). -/
theorem c9_witness :
    (⟨1, [(5 : Fr)]⟩ : LocalMerkleTree).node 1 0 =
      some (naiveNode (⟨1, [(5 : Fr)]⟩ : LocalMerkleTree) 1 0) ∧
    zh 7 = hashWithDomain (zh 6) (zh 6) .merkle ∧
    (⟨2, []⟩ : LocalMerkleTree).root = some (zh 2) :=
  ⟨c9_node_refines_naive.1 _ 1 0 (by decide),
   by
    have h := c9_node_refines_naive.2.2.2.1 7 (by decide)
    simpa using h,
   c9_node_refines_naive.2.2.2.2 ⟨2, []⟩ rfl (by decide)⟩

/-- C8 (counterexample): in a depth-1 tree holding three leaves, the proof
built for `cid = 2 < leaf_count` is rejected by `verify_proof` (the leaf index
exceeds the tree's `2^depth` capacity, and the root only covers the first
`2^depth` leaves). -/
theorem c8_counterexample :
    ((⟨1, [1, 2, 3]⟩ : LocalMerkleTree).buildProofByCids [2]).isSome = true ∧
    (((⟨1, [1, 2, 3]⟩ : LocalMerkleTree).buildProofByCids [2]).bind fun prs =>
      (⟨1, [1, 2, 3]⟩ : LocalMerkleTree).verifyProof (prs.getD 0 ⟨0, []⟩)) =
      some false := by
  refine ⟨by decide, by decide⟩

/-- C8 (amended): for every tree state with `depth ≤ 32` and every leaf index
`cid < leaf_count` with `cid < 2^depth`, `build_proof_by_cids([cid])` returns
a single proof of path length `depth + 1` that `verify_proof` accepts against
the current root. -/
theorem c8_proof_verifies :
    ∀ (t : LocalMerkleTree) (cid : Nat), t.depth ≤ 32 → cid < 2 ^ t.depth →
      cid < t.leafCount →
      ∃ pr : MerkleProof,
        t.buildProofByCids [cid] = some [pr] ∧
        pr.leafIndex = cid ∧ pr.path.length = t.depth + 1 ∧
        t.verifyProof pr = some true :=
  fun t cid h1 h2 h3 => buildProof_verifies t cid h1 h2 h3

/-- C8 (witness). -/
theorem c8_witness :
    ∃ pr : MerkleProof,
      (⟨2, [1, 2, 3]⟩ : LocalMerkleTree).buildProofByCids [1] = some [pr] ∧
      pr.leafIndex = 1 ∧ pr.path.length = 2 + 1 ∧
      (⟨2, [1, 2, 3]⟩ : LocalMerkleTree).verifyProof pr = some true :=
  c8_proof_verifies ⟨2, [1, 2, 3]⟩ 1 (by decide) (by decide) (by decide)

/-- C3 (counterexample): `point_add` can trap on off-curve input: with
`p1 = (1, 1)` and `p2 = (1, -1/d)` the first denominator `1 + d·τ` is zero,
so the `unwrap` on its inversion panics (modelled by `none`). -/
theorem c3_counterexample :
    pointAdd (1, 1)
      (1, (1914585478119578088273983752886946644891518856952974597949036734582400472812 : Fr)) =
      none := by decide

/-- C3 (amended): for on-curve operands — without any prime-subgroup
assumption — the two denominator inversions in `point_add` never fail, so the
unwraps are unreachable and the addition returns a value. -/
theorem c3_pointAdd_total_on_curve :
    ∀ p1 p2 : Fr × Fr, isOnCurve p1.1 p1.2 = true → isOnCurve p2.1 p2.2 = true →
      (pointAdd p1 p2).isSome = true := by
  intro p1 p2 h1 h2
  obtain ⟨x1, y1⟩ := p1
  obtain ⟨x2, y2⟩ := p2
  exact pointAdd_isSome_of_isOnCurve x1 y1 x2 y2 h1 h2

/-- C3 (witness). -/
theorem c3_witness : (pointAdd basePoint basePoint).isSome = true :=
  c3_pointAdd_total_on_curve basePoint basePoint (by decide) (by decide)

/-- C6: for every point satisfying the curve equation, compression succeeds
and decompression of the result returns exactly the original point. -/
theorem c6_compress_decompress_roundtrip :
    ∀ x y : Fr, isOnCurve x y = true →
      ∃ c, compressPoint x y = .ok c ∧ decompressPoint c = .ok (x, y) :=
  compress_decompress_aux

/-- C6 (witness): the identity point `(0, 1)`. -/
theorem c6_witness :
    isOnCurve 0 1 = true ∧
    ∃ c, compressPoint 0 1 = .ok c ∧ decompressPoint c = .ok (0, 1) :=
  ⟨by decide, c6_compress_decompress_roundtrip 0 1 (by decide)⟩

/-- C10: `hex_to_field` is total exactly for payloads of at most 32 bytes:
such inputs yield the big-endian value reduced into `Fr` or an `InvalidHex`
error, while a syntactically valid 66-digit input panics
(`copy_from_slice` length mismatch, modelled by `none`). -/
theorem c10_hexToField_partial_totality :
    (∀ (s : List Char) (bytes : List Nat),
      hexDecode (dropHexMarker s) = some bytes → bytes.length ≤ 32 →
      hexToField s = some (.ok ((beBytesToNat bytes : Nat) : Fr))) ∧
    (∀ s : List Char,
      hexDecode (dropHexMarker s) = none →
      hexToField s = some (.error .invalidHex)) ∧
    hexToField ('0' :: 'x' :: List.replicate 66 '0') = none := by
  refine ⟨?_, ?_, by decide⟩
  · intro s bytes h1 h2
    rw [hexToField, h1]
    simp [Option.elim, h2]
  · intro s h1
    rw [hexToField, h1]
    rfl

/-- C10 (witness). -/
theorem c10_witness :
    hexToField ('0' :: 'x' :: ['0', '1']) = some (.ok ((beBytesToNat [1] : Nat) : Fr)) ∧
    hexToField ['z'] = some (.error .invalidHex) :=
  ⟨c10_hexToField_partial_totality.1 ('0' :: 'x' :: ['0', '1']) [1] (by decide) (by decide),
   c10_hexToField_partial_totality.2.1 ['z'] (by decide)⟩

theorem optionElim_some {α β : Type} (a : α) (d : β) (f : α → β) :
    (some a).elim d f = f a := rfl

theorem optionBind_some {α β : Type} (a : α) (f : α → Option β) :
    (some a).bind f = f a := rfl

theorem exceptElim_ok {α β : Type} (v : α) (f : α → Option (Except OcashError β)) :
    exceptElim (.ok v) f = f v := rfl

theorem exceptElim_error {α β : Type} (e : OcashError)
    (f : α → Option (Except OcashError β)) :
    exceptElim (α := α) (β := β) (.error e) f = some (.error e) := rfl

/-- C1 (counterexample): a well-formed hex memo of 48 bytes whose leading 32
bytes are not a decompressible point makes `decrypt_memo` return an error
(`NoSquareRoot`), not the negative result `Ok(None)` — regardless of the
external primitives, which are never reached. -/
theorem c1_counterexample :
    decryptMemo (fun _ => []) (fun _ _ _ => none) 0
      ('0' :: 'x' :: '0' :: '2' :: List.replicate 94 '0') =
      some (.error .noSquareRoot) := by decide

/-- C1 (amended): memo decryption returns the negative result `Ok(None)` on a
short input (< 48 bytes) and on an authentication failure of the AEAD open,
but a failure to decompress the leading ephemeral key is propagated as an
error value (`?` on `decompress_point`), for every external Keccak and AEAD
primitive. -/
theorem c1_decrypt_memo_failures :
    (∀ (keccak : List Nat → List Nat)
        (aead : List Nat → List Nat → List Nat → Option (List Nat))
        (sk : Fr) (s : List Char) (payload : List Nat),
      hexDecode (dropHexMarker s) = some payload → payload.length < 48 →
      decryptMemo keccak aead sk s = some (.ok none)) ∧
    (∀ (keccak : List Nat → List Nat)
        (aead : List Nat → List Nat → List Nat → Option (List Nat))
        (sk : Fr) (s : List Char) (payload : List Nat) (ephPk bobPk sharedPoint : Fr × Fr)
        (sharedKey nonceBytes : List Nat),
      hexDecode (dropHexMarker s) = some payload → 48 ≤ payload.length →
      decompressPoint (payload.take 32) = .ok ephPk →
      scalarMult sk = some bobPk →
      mulPoint ephPk sk = some sharedPoint →
      compressPoint sharedPoint.1 sharedPoint.2 = .ok sharedKey →
      memoNonce keccak ephPk bobPk = .ok nonceBytes →
      aead sharedKey nonceBytes (payload.drop 32) = none →
      decryptMemo keccak aead sk s = some (.ok none)) ∧
    (∀ (keccak : List Nat → List Nat)
        (aead : List Nat → List Nat → List Nat → Option (List Nat))
        (sk : Fr) (s : List Char) (payload : List Nat) (e : OcashError),
      hexDecode (dropHexMarker s) = some payload → 48 ≤ payload.length →
      decompressPoint (payload.take 32) = .error e →
      decryptMemo keccak aead sk s = some (.error e)) := by
  refine ⟨?_, ?_, ?_⟩
  · intro keccak aead sk s payload h1 h2
    rw [decryptMemo, h1, optionElim_some, if_pos (by omega)]
  · intro keccak aead sk s payload ephPk bobPk sharedPoint sharedKey nonceBytes
      h1 h2 hdec hsm hmul hcomp hnonce haead
    simp only [decryptMemo, h1, optionElim_some, if_neg (show ¬payload.length < 32 + 16 by omega),
      hdec, exceptElim_ok, hsm, optionBind_some, hmul, hcomp, hnonce, haead,
      Option.elim]
  · intro keccak aead sk s payload e h1 h2 hdec
    rw [decryptMemo, h1, optionElim_some, if_neg (show ¬payload.length < 32 + 16 by omega),
      hdec, exceptElim_error]

/-- C1 (witness). -/
theorem c1_witness :
    decryptMemo (fun _ => []) (fun _ _ _ => none) 0 ('0' :: 'x' :: ['0', '0']) =
      some (.ok none) ∧
    decryptMemo (fun _ => []) (fun _ _ _ => none) 0
      ('0' :: 'x' :: '0' :: '1' :: List.replicate 94 '0') = some (.ok none) ∧
    decryptMemo (fun _ => []) (fun _ _ _ => none) 0
      ('0' :: 'x' :: '0' :: '2' :: List.replicate 94 '0') =
      some (.error .noSquareRoot) :=
  ⟨c1_decrypt_memo_failures.1 _ _ 0 _ [0] (by decide) (by decide),
   c1_decrypt_memo_failures.2.1 _ _ 0 _
     (1 :: List.replicate 47 0) (0, 1) (0, 1) (0, 1) (leBytes 32 1) []
     (by decide) (by decide) (by decide) (by decide) (by decide) (by decide)
     (by decide) rfl,
   c1_decrypt_memo_failures.2.2 _ _ 0 _
     (2 :: List.replicate 47 0) .noSquareRoot (by decide) (by decide) (by decide)⟩

set_option maxHeartbeats 40000000 in
/-- C2 (counterexample): the homomorphism claim fails when the scalar sum
wraps modulo `p`: with `k1 = -1` (representative `p-1`) and `k2 = 1`,
`point_add(scalar_mult(k1), scalar_mult(k2))` is `p·G ≠ identity`, while
`scalar_mult(k1 + k2) = scalar_mult(0)` is the identity — the loop uses the
canonical representative and the order `l` of `G` does not divide `p`. -/
theorem c2_counterexample :
    ((scalarMult (-1)).bind fun a => (scalarMult 1).bind fun b => pointAdd a b) ≠
      scalarMult (-1 + 1) := by decide

set_option maxHeartbeats 40000000 in
/-- C2 (amended): the addition law agrees with scalar multiplication at the
specification's concrete instance: `5·G + 7·G = 12·G`. -/
theorem c2_five_seven_twelve :
    ((scalarMult 5).bind fun a => (scalarMult 7).bind fun b => pointAdd a b) =
      scalarMult 12 := by decide
